import Mathlib

/-!
Verification of the dual-source retrieval core of the soc_l1 repository.

The development shallowly embeds the Python modules
`rag/embedding_indexer.py` and `rag/context_retriever.py`.

Modelling conventions:
* Python strings are Lean `String` values; character-level operations are
  carried out on `List Char`.
* Python floats (similarity scores, boost factors) are modelled as exact
  rationals `ℚ`.
* Python dictionaries are insertion-ordered association lists
  `List (String × PyVal)`; assignment replaces in place or appends,
  mirroring CPython dict semantics.
* External libraries (numpy, faiss, json, ollama) are not repository code:
  numpy arrays enter the model through their shape, the faiss flat index
  through its dimension and vector count, `json.loads` is an explicit
  parameter `jparse : String → Option PyVal` of the functions that call it,
  and embedding plus index search is a parameter
  `search : String → Nat → SearchRes`.
* The regular expressions of `context_retriever.py` are embedded through a
  small backtracking matcher (`matchSeq`, `reSearch`) that implements the
  exact pattern subset used by the module: single-character classes with
  greedy quantifiers, anchors, word boundaries and one capture group.
-/

/-! ## Python string primitives -/

/-- Python `str.lower()` restricted to the character-wise case mapping. -/
def pyLower (s : String) : String :=
  String.mk (s.toList.map Char.toLower)

/-- Python whitespace test used by `str.strip` and `str.split`. -/
def pyIsSpace (c : Char) : Bool :=
  c = ' ' || c = '\t' || c = '\n' || c = '\r' || c = '\x0b' || c = '\x0c'

/-- Python `str.strip()` with no arguments. -/
def pyStrip (s : String) : String :=
  String.mk (((s.toList.dropWhile pyIsSpace).reverse.dropWhile pyIsSpace).reverse)

/-- Python `needle in hay` substring containment on lists of characters. -/
def listIsInfix (needle hay : List Char) : Bool :=
  match hay with
  | [] => needle.isEmpty
  | _ :: t => needle.isPrefixOf hay || listIsInfix needle t

/-- Python `needle in hay` substring containment. -/
def pyContains (hay needle : String) : Bool :=
  listIsInfix needle.toList hay.toList

/-- Python `str.zfill(w)` for the non-negative strings used here. -/
def zfill (s : String) (w : Nat) : String :=
  if s.length ≥ w then s
  else String.mk (List.replicate (w - s.length) '0') ++ s

/-- Python `str.lstrip("0")`. -/
def lstripZeros (s : String) : String :=
  String.mk (s.toList.dropWhile (· = '0'))

/-- Python `str.split()` with no arguments: split on whitespace runs,
dropping empty pieces. -/
def pySplitWs (s : String) : List String :=
  ((s.toList.splitOnP pyIsSpace).map String.mk).filter (· ≠ "")

/-- Python `int(s)` on a string of decimal digits (the only shape the
retrieval code ever passes: regex captures of `\d+` and zero-padded ids). -/
def intOfDigits (s : String) : Nat :=
  s.toList.foldl (fun a c => a * 10 + (c.toNat - 48)) 0

/-- Decimal representation of a natural number (Python `str(n)`). -/
def natRepr (n : Nat) : String :=
  String.mk (Nat.toDigits 10 n)

/-- Python `s[:n]` prefix slice. -/
def pyTake (s : String) (n : Nat) : String :=
  String.mk (s.toList.take n)

/-- Python `s[a:b]` slice for `a ≤ b`. -/
def pySlice (s : String) (a b : Nat) : String :=
  String.mk ((s.toList.drop a).take (b - a))

/-- Python `s[a:]` suffix slice. -/
def pyDrop (s : String) (a : Nat) : String :=
  String.mk (s.toList.drop a)

/-- First index at which `needle` occurs in `hay` before position `stop`
(Python `hay.rfind(needle, 0, stop)` returns the last one; this helper
scans positions upward and is combined below). -/
def findOccs (needle hay : List Char) : List Nat :=
  (List.range (hay.length + 1)).filter (fun i => needle.isPrefixOf (hay.drop i))

/-- Python `hay.rfind(needle, 0, stop)`: highest start position of an
occurrence of `needle` lying entirely inside `hay[0:stop]`, or `none`
(where Python returns -1). -/
def pyRfindBefore (hay needle : String) (stop : Nat) : Option Nat :=
  ((findOccs needle.toList hay.toList).filter
    (fun i => i + needle.length ≤ stop)).max?

/-! ## Python values

`PyVal` covers every value shape the retrieval code stores in metadata or
obtains from `json.loads`: scalars, lists and string-keyed dictionaries. -/

inductive PyVal : Type where
  | vstr (s : String)
  | vint (n : Int)
  | vfloat (q : ℚ)
  | vbool (b : Bool)
  | vnone
  | vlist (xs : List PyVal)
  | vdict (fs : List (String × PyVal))

/-- The scalar values `_safe_meta` keeps unchanged:
`isinstance(v, (str, int, float, bool))` or `v is None`. -/
def PyVal.isScalar : PyVal → Bool
  | .vstr _ => true
  | .vint _ => true
  | .vfloat _ => true
  | .vbool _ => true
  | .vnone => true
  | _ => false

/-- Python truthiness of a value. -/
def pyTruthy : PyVal → Bool
  | .vstr s => s ≠ ""
  | .vint n => n ≠ 0
  | .vfloat q => q ≠ 0
  | .vbool b => b
  | .vnone => false
  | .vlist xs => ¬ xs.isEmpty
  | .vdict fs => ¬ fs.isEmpty

/-- Decimal representation of an integer (Python `str` on ints). -/
def intRepr (n : Int) : String :=
  if n < 0 then "-" ++ natRepr n.natAbs else natRepr n.natAbs

/-- Representation of a rational used where Python would print a float;
only the property of being a non-blank string matters to the code. -/
def ratRepr (q : ℚ) : String :=
  intRepr q.num ++ "/" ++ natRepr q.den

mutual

/-- Python `str(v)`. For scalars this follows CPython exactly; for lists
and dicts it is an abbreviated repr, which the retrieval code only ever
feeds to truthiness or blankness tests. -/
def pyValStr : PyVal → String
  | .vstr s => s
  | .vint n => intRepr n
  | .vfloat q => ratRepr q
  | .vbool b => if b then "True" else "False"
  | .vnone => "None"
  | .vlist xs => "[" ++ pyValStrList xs ++ "]"
  | .vdict fs => "\x7b" ++ pyValStrFields fs ++ "\x7d"

def pyValStrList : List PyVal → String
  | [] => ""
  | [x] => pyValStr x
  | x :: xs => pyValStr x ++ ", " ++ pyValStrList xs

def pyValStrFields : List (String × PyVal) → String
  | [] => ""
  | [(k, v)] => k ++ ": " ++ pyValStr v
  | (k, v) :: fs => k ++ ": " ++ pyValStr v ++ ", " ++ pyValStrFields fs

end

/-- JSON string escaping used by `json.dumps`. -/
def jsonEscape (s : String) : String :=
  String.mk (s.toList.flatMap (fun c =>
    if c = '"' then ['\\', '"']
    else if c = '\\' then ['\\', '\\']
    else if c = '\n' then ['\\', 'n']
    else [c]))

mutual

/-- Python `json.dumps(v, default=str)` on the value shapes of `PyVal`. -/
def jsonDumps : PyVal → String
  | .vstr s => "\"" ++ jsonEscape s ++ "\""
  | .vint n => intRepr n
  | .vfloat q => ratRepr q
  | .vbool b => if b then "true" else "false"
  | .vnone => "null"
  | .vlist xs => "[" ++ jsonDumpsList xs ++ "]"
  | .vdict fs => "\x7b" ++ jsonDumpsFields fs ++ "\x7d"

def jsonDumpsList : List PyVal → String
  | [] => ""
  | [x] => jsonDumps x
  | x :: xs => jsonDumps x ++ ", " ++ jsonDumpsList xs

def jsonDumpsFields : List (String × PyVal) → String
  | [] => ""
  | [(k, v)] => "\"" ++ jsonEscape k ++ "\": " ++ jsonDumps v
  | (k, v) :: fs => "\"" ++ jsonEscape k ++ "\": " ++ jsonDumps v ++ ", " ++ jsonDumpsFields fs

end

/-- A Python dictionary with string keys, in insertion order. -/
abbrev Meta := List (String × PyVal)

/-- Python `d.get(k)`: value of the first (hence only) binding of `k`. -/
def dictGet (d : Meta) (k : String) : Option PyVal :=
  match d.find? (fun p => p.1 = k) with
  | some p => some p.2
  | none => none

/-- Python `d[k] = v`: replace the binding in place if the key is present,
else append it, as CPython dicts do. -/
def dictSet (d : Meta) (k : String) (v : PyVal) : Meta :=
  if d.any (fun p => p.1 = k) then
    d.map (fun p => if p.1 = k then (k, v) else p)
  else d ++ [(k, v)]

/-- Python `k in d` on dictionaries. -/
def dictHasKey (d : Meta) (k : String) : Bool :=
  d.any (fun p => p.1 = k)

/-! ## Regular-expression engine

`context_retriever.py` uses `re` with a small pattern vocabulary: literal
characters, the classes `\d`, `\s`, `[ #:-]`, `[^0-9]`, `[^"]`, `.`, the
greedy quantifiers `*`, `?`, `+`, `{1,4}`, the anchors `^` and `$`, the
word boundary `\b`, and a single capture group.  The engine below
implements exactly that vocabulary with leftmost-match, greedy,
backtracking semantics, and flags for `re.I` and `re.MULTILINE`. -/

/-- A single-character pattern class. -/
inductive CClass : Type where
  | lit (c : Char)
  | digit
  | space
  | notDigit
  | notChar (c : Char)
  | anyNoNl
  | oneOf (cs : List Char)

/-- One element of a pattern: a class with its quantifier, an anchor, a
word boundary, or a capture-group delimiter. -/
inductive RElem : Type where
  | one (c : CClass)
  | star (c : CClass)
  | opt (c : CClass)
  | repGL (c : CClass) (lo hi : Nat)
  | plus (c : CClass)
  | bol
  | eol
  | wordB
  | grpOpen
  | grpClose

/-- Whether character `ch` is matched by class `c` (with `ci` for `re.I`). -/
def cmatch (ci : Bool) (c : CClass) (ch : Char) : Bool :=
  match c with
  | .lit l => if ci then l.toLower = ch.toLower else l = ch
  | .digit => ch.isDigit
  | .space => pyIsSpace ch
  | .notDigit => ¬ ch.isDigit
  | .notChar l => l ≠ ch
  | .anyNoNl => ch ≠ '\n'
  | .oneOf cs => cs.any (fun l => if ci then l.toLower = ch.toLower else l = ch)

/-- Python `\w` (ASCII range, which is all the data uses). -/
def isWordChar (c : Char) : Bool :=
  c.isAlphanum || c = '_'

/-- Length of the maximal run of characters matching `c` from position
`pos` of `s`. -/
def maxRun (ci : Bool) (s : List Char) (c : CClass) (pos : Nat) : Nat :=
  ((s.drop pos).takeWhile (cmatch ci c)).length

/-- Greedy choice: try `f n`, then `f (n-1)`, …, down to `f 0`. -/
def tryG {α : Type} (f : Nat → Option α) : Nat → Option α
  | 0 => f 0
  | n + 1 => (f (n + 1)).orElse (fun _ => tryG f n)

/-- Backtracking matcher for a pattern element list against `s`, starting
at position `pos`.  `gs` is the pending group-open position, `cap` the
captured span.  Returns the end position and capture of the first match in
greedy order, exactly as the CPython backtracking engine would. -/
def matchSeq (ci ml : Bool) (s : List Char) :
    List RElem → Nat → Option Nat → Option (Nat × Nat) →
    Option (Nat × Option (Nat × Nat))
  | [], pos, _, cap => some (pos, cap)
  | e :: rest, pos, gs, cap =>
    match e with
    | .one c =>
      match s.get? pos with
      | some ch => if cmatch ci c ch then matchSeq ci ml s rest (pos + 1) gs cap else none
      | none => none
    | .star c =>
      tryG (fun j => matchSeq ci ml s rest (pos + j) gs cap) (maxRun ci s c pos)
    | .opt c =>
      let consume :=
        match s.get? pos with
        | some ch => if cmatch ci c ch then matchSeq ci ml s rest (pos + 1) gs cap else none
        | none => none
      consume.orElse (fun _ => matchSeq ci ml s rest pos gs cap)
    | .repGL c lo hi =>
      let n := min (maxRun ci s c pos) hi
      if n < lo then none
      else tryG (fun j => matchSeq ci ml s rest (pos + lo + j) gs cap) (n - lo)
    | .plus c =>
      let n := maxRun ci s c pos
      if n = 0 then none
      else tryG (fun j => matchSeq ci ml s rest (pos + 1 + j) gs cap) (n - 1)
    | .bol =>
      if pos = 0 || (ml && s.get? (pos - 1) = some '\n') then
        matchSeq ci ml s rest pos gs cap
      else none
    | .eol =>
      if pos = s.length ||
          (s.get? pos = some '\n' && (ml || pos = s.length - 1)) then
        matchSeq ci ml s rest pos gs cap
      else none
    | .wordB =>
      let before := match s.get? (pos - 1) with
        | some ch => pos ≠ 0 && isWordChar ch
        | none => false
      let after := match s.get? pos with
        | some ch => isWordChar ch
        | none => false
      if before ≠ after then matchSeq ci ml s rest pos gs cap else none
    | .grpOpen => matchSeq ci ml s rest pos (some pos) cap
    | .grpClose =>
      matchSeq ci ml s rest pos gs
        (match gs with
         | some a => some (a, pos)
         | none => cap)

/-- A regex match: start, end, and the span of group 1 if captured. -/
structure RMatch : Type where
  mstart : Nat
  mend : Nat
  group1 : Option (Nat × Nat)

/-- Scan start positions `start, start+1, …` (fuelled by the remaining
length) and return the leftmost match, like `re.search`. -/
def reSearchFrom (ci ml : Bool) (pat : List RElem) (s : List Char) :
    Nat → Nat → Option RMatch
  | _, 0 => none
  | start, fuel + 1 =>
    match matchSeq ci ml s pat start none none with
    | some (e, cap) => some ⟨start, e, cap⟩
    | none =>
      if start < s.length then reSearchFrom ci ml pat s (start + 1) fuel
      else none

/-- Python `pat.search(s)`. -/
def reSearch (ci ml : Bool) (pat : List RElem) (s : String) : Option RMatch :=
  reSearchFrom ci ml pat s.toList 0 (s.toList.length + 1)

/-- Python `pat.match(s)`: anchored at position 0. -/
def reMatch (ci ml : Bool) (pat : List RElem) (s : String) : Option RMatch :=
  match matchSeq ci ml s.toList pat 0 none none with
  | some (e, cap) => some ⟨0, e, cap⟩
  | none => none

/-- The text of group 1 of a match (`m.group(1)`), empty if absent. -/
def groupStr (s : String) (m : RMatch) : String :=
  match m.group1 with
  | some (a, b) => pySlice s a b
  | none => ""

/-- A literal string as a pattern-element list (also models `re.escape`
applied to arbitrary text, since escaping only ever produces literals). -/
def litStr (t : String) : List RElem :=
  t.toList.map (fun c => RElem.one (CClass.lit c))

/-- `RULE_PAT = re.compile(r"(?:\brule\b\s*#?\s*)(\d{1,4})\b", flags=re.I)`. -/
def RULE_PAT : List RElem :=
  [RElem.wordB] ++ litStr "rule" ++ [RElem.wordB, RElem.star .space,
    RElem.opt (.lit '#'), RElem.star .space,
    RElem.grpOpen, RElem.repGL .digit 1 4, RElem.grpClose, RElem.wordB]

/-- `EXACT_RULE_PAT = re.compile(r"^\s*rule\s*#?\s*(\d{1,4})\s*$", flags=re.I)`. -/
def EXACT_RULE_PAT : List RElem :=
  [RElem.bol, RElem.star .space] ++ litStr "rule" ++ [RElem.star .space,
    RElem.opt (.lit '#'), RElem.star .space,
    RElem.grpOpen, RElem.repGL .digit 1 4, RElem.grpClose,
    RElem.star .space, RElem.eol]

/-- `JUST_NUMBER_PAT = re.compile(r"^\s*(\d{1,4})\s*$")`. -/
def JUST_NUMBER_PAT : List RElem :=
  [RElem.bol, RElem.star .space,
    RElem.grpOpen, RElem.repGL .digit 1 4, RElem.grpClose,
    RElem.star .space, RElem.eol]

/-- The pattern `rule\s*#?\s*(\d+)` used for cross-rule detection in
`_retrieve_with_dynamic_matching` and `_filter_by_rule_relevance`. -/
def OTHER_RULE_PAT : List RElem :=
  litStr "rule" ++ [RElem.star .space, RElem.opt (.lit '#'), RElem.star .space,
    RElem.grpOpen, RElem.plus .digit, RElem.grpClose]

/-! ## embedding_indexer.py: metadata flattening and the FAISS index -/

/-- `_safe_meta(meta)`: scalars pass through, everything else is replaced
by its `json.dumps(v, default=str)` string.  The insertion loop is the
Python `for k, v in (meta or {}).items(): safe[k] = …`. -/
def safeMeta (meta : Meta) : Meta :=
  meta.foldl
    (fun safe kv =>
      dictSet safe kv.1 (if kv.2.isScalar then kv.2 else PyVal.vstr (jsonDumps kv.2)))
    []

/-- The `has_rule_content` flag computed in `FaissIndexer.add`:
`bool("rule" in doc.lower() and any(c.isdigit() for c in doc))`. -/
def hasRuleContent (doc : String) : Bool :=
  pyContains (pyLower doc) "rule" && doc.toList.any Char.isDigit

/-- The per-document metadata enhancement loop body of `FaissIndexer.add`:
flatten with `_safe_meta`, then set `doc_length` and `has_rule_content`. -/
def enhanceMeta (meta : Meta) (doc : String) : Meta :=
  dictSet (dictSet (safeMeta meta) "doc_length" (PyVal.vint doc.length))
    "has_rule_content" (PyVal.vbool (hasRuleContent doc))

/-- The faiss `IndexFlatIP` as far as the sidecar state observes it:
its dimension `d` and vector count `ntotal`.  `faiss` is an external
library; vector payloads never reach the properties under verification. -/
structure IndexFile : Type where
  d : Nat
  ntotal : Nat
deriving DecidableEq

/-- The JSON sidecar written by `FaissIndexer.persist`. -/
structure Sidecar : Type where
  ids : List String
  metadatas : List Meta
  documents : List String
  dim : Nat
  total_docs : Nat
  rule_docs : Nat
  tracker_docs : Nat
  rulebook_docs : Nat

/-- The persistence directory: the `.index` file and the `.meta.json`
file, each possibly absent. -/
structure Storage : Type where
  indexFile : Option IndexFile
  metaFile : Option Sidecar

/-- The mutable state of a `FaissIndexer` instance. -/
structure FaissState : Type where
  index : Option IndexFile
  ids : List String
  metadatas : List Meta
  documents : List String

/-- `FaissIndexer.__init__`: if both files exist the state is loaded from
them (`_load`), otherwise the indexer starts empty. -/
def FaissIndexer.init (st : Storage) : FaissState :=
  match st.indexFile, st.metaFile with
  | some ix, some sc =>
    { index := some ix, ids := sc.ids, metadatas := sc.metadatas,
      documents := sc.documents }
  | _, _ => { index := none, ids := [], metadatas := [], documents := [] }

/-- `FaissIndexer.count`. -/
def FaissIndexer.count (st : FaissState) : Nat :=
  match st.index with
  | none => 0
  | some ix => ix.ntotal

/-- A numpy embeddings argument, observed through its shape
(`None` is `Option.none`; dtype conversion is value-preserving). -/
abbrev EmbArg := Option (List Nat)

/-- `FaissIndexer.add(embeddings, ids, metadatas, documents)`.

Mirrors the source line by line: early return on `None`/empty, shape
check, dimension init or mismatch check, metadata enhancement over
`zip(metadatas, documents)`, then the four appends.  Errors are returned
as `Except.error (message, state-at-raise)`; every `raise` in the source
happens before any mutation, which the error payload makes checkable. -/
def FaissIndexer.add (st : FaissState) (embeddings : EmbArg)
    (ids : List String) (metadatas : List Meta) (documents : List String) :
    Except (String × FaissState) FaissState :=
  match embeddings with
  | none => .ok st
  | some shape =>
    if shape.prod = 0 then .ok st
    else if shape.length ≠ 2 then
      .error ("Expected 2D embeddings [N, D]", st)
    else
      let dim := shape.getD 1 0
      match st.index with
      | none =>
        if dim = 0 then .error ("Invalid embedding dimension: 0", st)
        else
          .ok { index := some { d := dim, ntotal := shape.getD 0 0 },
                ids := st.ids ++ ids,
                metadatas := st.metadatas ++
                  (metadatas.zip documents).map (fun md => enhanceMeta md.1 md.2),
                documents := st.documents ++ documents }
      | some ix =>
        if ix.d ≠ dim then
          .error ("Embedding dim mismatch: index dim " ++ natRepr ix.d ++
            " vs batch dim " ++ natRepr dim, st)
        else
          .ok { index := some { d := ix.d, ntotal := ix.ntotal + shape.getD 0 0 },
                ids := st.ids ++ ids,
                metadatas := st.metadatas ++
                  (metadatas.zip documents).map (fun md => enhanceMeta md.1 md.2),
                documents := st.documents ++ documents }

/-- `FaissIndexer.persist`: no-op when no index exists, otherwise write
the index file and the JSON sidecar (ids, metadatas, documents, dim and
the derived stats block). -/
def FaissIndexer.persist (st : FaissState) (disk : Storage) : Storage :=
  match st.index with
  | none => disk
  | some ix =>
    { indexFile := some ix,
      metaFile := some
        { ids := st.ids, metadatas := st.metadatas, documents := st.documents,
          dim := ix.d,
          total_docs := st.documents.length,
          rule_docs := (st.metadatas.filter (fun m =>
            match dictGet m "has_rule_content" with
            | some v => pyTruthy v
            | none => false)).length,
          tracker_docs := (st.metadatas.filter (fun m =>
            match dictGet m "doctype" with
            | some (PyVal.vstr s) => s = "tracker_row"
            | _ => false)).length,
          rulebook_docs := (st.metadatas.filter (fun m =>
            match dictGet m "doctype" with
            | some (PyVal.vstr s) => s = "rulebook"
            | _ => false)).length } }

/-- One batch passed to `FaissIndexer.add`. -/
structure AddBatch : Type where
  emb : EmbArg
  ids : List String
  metas : List Meta
  docs : List String

/-- A sequence of `add` calls that stops at the first raised error. -/
def runAdds (st : FaissState) : List AddBatch → Except (String × FaissState) FaissState
  | [] => .ok st
  | b :: bs =>
    match FaissIndexer.add st b.emb b.ids b.metas b.docs with
    | .ok st2 => runAdds st2 bs
    | .error e => .error e

/-- A sequence of `add` calls where the caller catches every exception and
keeps using the indexer object (its state at the raise). -/
def runAddsCaught (st : FaissState) : List AddBatch → FaissState
  | [] => st
  | b :: bs =>
    match FaissIndexer.add st b.emb b.ids b.metas b.docs with
    | .ok st2 => runAddsCaught st2 bs
    | .error e => runAddsCaught e.2 bs

/-! ## context_retriever.py: dynamic rule mapper and query understanding -/

/-- The state of the `DynamicRuleMapper` singleton. -/
structure RuleMapper : Type where
  rule_to_alert_map : List (String × List String)
  alert_to_rule_map : List (String × String)
  rule_patterns : List (String × List String)
  loaded : Bool

/-- A freshly constructed, never-loaded mapper. -/
def RuleMapper.fresh : RuleMapper :=
  { rule_to_alert_map := [], alert_to_rule_map := [], rule_patterns := [],
    loaded := false }

/-- Lookup in an insertion-ordered string-keyed association list. -/
def alGet {α : Type} (d : List (String × α)) (k : String) : Option α :=
  match d.find? (fun p => p.1 = k) with
  | some p => some p.2
  | none => none

/-- Association-list update with Python-dict semantics. -/
def alSet {α : Type} (d : List (String × α)) (k : String) (v : α) :
    List (String × α) :=
  if d.any (fun p => p.1 = k) then
    d.map (fun p => if p.1 = k then (k, v) else p)
  else d ++ [(k, v)]

/-- One record of the rule-keys artifact. -/
structure RuleKeyRec : Type where
  rule_id : String
  alert_name : String

/-- The per-record body of `DynamicRuleMapper.load_from_artifacts`. -/
def loadOneRuleKey (m : RuleMapper) (item : RuleKeyRec) : RuleMapper :=
  let rid0 := pyStrip item.rule_id
  let alert := pyStrip item.alert_name
  if rid0 = "" then m
  else
    let rid := zfill rid0 3
    let m1 :=
      if alert = "" then m
      else
        let cur := (alGet m.rule_to_alert_map rid).getD []
        let withAlert :=
          if alert ∈ cur then cur else cur ++ [alert]
        let m1a := { m with rule_to_alert_map := alSet m.rule_to_alert_map rid withAlert }
        let akey := pyStrip (pyLower alert)
        if (alGet m1a.alert_to_rule_map akey).isSome then m1a
        else { m1a with alert_to_rule_map := m1a.alert_to_rule_map ++ [(akey, rid)] }
    let pats :=
      ["rule " ++ rid, "rule#" ++ rid,
        "rule " ++ natRepr (intOfDigits rid), "rule#" ++ natRepr (intOfDigits rid)] ++
      (if alert = "" then []
       else [pyLower alert, pyLower alert ++ " rule",
         "rule " ++ rid ++ " " ++ pyLower alert])
    { m1 with rule_patterns := alSet m1.rule_patterns rid pats }

/-- `DynamicRuleMapper.load_from_artifacts` on an artifact whose records
are present and well formed: fold the records and set `loaded`. -/
def loadFromArtifacts (rows : List RuleKeyRec) : RuleMapper :=
  { rows.foldl loadOneRuleKey RuleMapper.fresh with loaded := true }

/-- `DynamicRuleMapper.get_rule_patterns`. -/
def RuleMapper.getRulePatterns (m : RuleMapper) (rid : String) : List String :=
  (alGet m.rule_patterns rid).getD []

/-- `DynamicRuleMapper.get_alert_names`. -/
def RuleMapper.getAlertNames (m : RuleMapper) (rid : String) : List String :=
  (alGet m.rule_to_alert_map rid).getD []

/-- `DynamicRuleMapper.find_rule_from_query`: exact alert-substring pass,
then the 60 percent word-overlap pass. -/
def RuleMapper.findRuleFromQuery (m : RuleMapper) (query : String) :
    Option String :=
  if ¬ m.loaded then none
  else
    let ql := pyStrip (pyLower query)
    match m.alert_to_rule_map.find? (fun p => pyContains ql p.1) with
    | some p => some p.2
    | none =>
      (m.alert_to_rule_map.find? (fun p =>
        let ws := pySplitWs p.1
        decide (1 < ws.length) &&
        decide ((((ws.filter (fun w => pyContains ql w)).length : ℚ)) ≥
          (ws.length : ℚ) * (3 / 5)))).map (fun p => p.2)

/-- `parse_rule_id(q)`.  The global mapper singleton is passed explicitly;
it stands for the state the singleton has after the lazy
`load_from_artifacts` attempt inside the function. -/
def parse_rule_id (mapper : RuleMapper) (q : String) : String :=
  if q = "" then ""
  else
    match reMatch true false EXACT_RULE_PAT q with
    | some m => zfill (groupStr q m) 3
    | none =>
      match reSearch true false RULE_PAT q with
      | some m => zfill (groupStr q m) 3
      | none =>
        match reMatch false false JUST_NUMBER_PAT q with
        | some m => zfill (groupStr q m) 3
        | none =>
          match mapper.findRuleFromQuery q with
          | some rid => rid
          | none => ""

/-- The operational-tracker keywords of `classify_query`. -/
def trackerKeywords : List String :=
  ["count", "counts", "total", "priority", "priorities", "status",
   "statuses", "opened", "closed", "resolved", "sla", "owner", "assignee",
   "incident", "ticket", "daily", "weekly", "summary", "dashboard"]

/-- The result record of `classify_query`. -/
structure QueryClass : Type where
  about_rule : Bool
  about_tracker : Bool
  is_exact_rule : Bool
  rule_id : String
  confidence : String
  is_dynamic_match : Bool

/-- `classify_query(q)`. -/
def classify_query (mapper : RuleMapper) (q : String) : QueryClass :=
  let s := pyLower q
  let rule_id := parse_rule_id mapper q
  let is_exact_rule :=
    (reMatch true false EXACT_RULE_PAT q).isSome ||
    (reMatch false false JUST_NUMBER_PAT q).isSome
  let is_basic_rule :=
    ["rule", "remediation", "procedure", "steps"].any (fun w => pyContains s w)
  let is_dynamic_rule := rule_id ≠ "" && mapper.loaded
  let is_rule := is_basic_rule || is_dynamic_rule
  let tracker_signals := trackerKeywords.any (fun w => pyContains s w)
  { about_rule := is_rule,
    about_tracker := tracker_signals || ¬ is_rule,
    is_exact_rule := is_exact_rule,
    rule_id := rule_id,
    confidence :=
      if is_exact_rule then "high" else if rule_id ≠ "" then "medium" else "low",
    is_dynamic_match := is_dynamic_rule }

/-- The dedup step `[v for v in dict.fromkeys(…)]`: keep first occurrences. -/
def dedupKeepFirst : List String → List String
  | [] => []
  | x :: xs => x :: dedupKeepFirst (xs.filter (fun y => y ≠ x))
termination_by l => l.length
decreasing_by
  simp only [List.length_cons]
  exact Nat.lt_succ_of_le (List.length_filter_le _ _)

/-- `expand_tracker_queries(q)`. -/
def expand_tracker_queries (q : String) : List String :=
  let base := pyStrip q
  let variants := [base, base ++ " tracker", base ++ " incident",
    base ++ " status priority owner"]
  dedupKeepFirst ((variants.map pyStrip).filter (fun v => v ≠ ""))

/-- `expand_rulebook_queries(q, rule_id)`. -/
def expand_rulebook_queries (mapper : RuleMapper) (q : String)
    (rule_id : String) : List String :=
  let base := pyStrip q
  let variants := [base] ++
    (if rule_id ≠ "" then
      let ruleNum := natRepr (intOfDigits rule_id)
      ["Rule " ++ rule_id, "Rule#" ++ rule_id, "Rule " ++ ruleNum,
        "Rule#" ++ ruleNum, "Rule " ++ rule_id ++ " procedure",
        "Rule " ++ rule_id ++ " remediation",
        "Rule " ++ rule_id ++ " investigation steps"] ++
      (if mapper.loaded then
        mapper.getRulePatterns rule_id ++
        (mapper.getAlertNames rule_id).flatMap (fun a =>
          [a, a ++ " procedure", a ++ " remediation"])
      else [])
    else []) ++
    [base ++ " rulebook", base ++ " procedure steps remediation"]
  dedupKeepFirst ((variants.map pyStrip).filter (fun v => v ≠ ""))

/-! ## context_retriever.py: dual-source retrieval -/

/-- One retrieval hit `(id, score, document, metadata)`. -/
structure Hit : Type where
  id : String
  score : ℚ
  doc : String
  meta : Meta

/-- The four parallel result lists returned by `FaissIndexer.query` and by
`_retrieve_with_dynamic_matching`. -/
structure SearchRes : Type where
  ids : List String
  scores : List ℚ
  documents : List String
  metadatas : List Meta

/-- The `zip(res["ids"], res["scores"], res["documents"], res["metadatas"])`
iteration, truncating to the shortest list as Python zip does. -/
def hitsOf (res : SearchRes) : List Hit :=
  (res.ids.zip (res.scores.zip (res.documents.zip res.metadatas))).map
    (fun t => { id := t.1, score := t.2.1, doc := t.2.2.1, meta := t.2.2.2 })

/-- Rebuild the four parallel lists from a hit list. -/
def packHits (l : List Hit) : SearchRes :=
  { ids := l.map Hit.id, scores := l.map Hit.score,
    documents := l.map Hit.doc, metadatas := l.map Hit.meta }

/-- The `exact_patterns` list of `_retrieve_with_dynamic_matching`:
`[f"rule#{rule_id}", f"rule {rule_id}", f"rule {int(rule_id)}"]`. -/
def exactRulePats (rule_id : String) : List String :=
  ["rule#" ++ rule_id, "rule " ++ rule_id,
    "rule " ++ natRepr (intOfDigits rule_id)]

/-- The boost-factor computation of `_retrieve_with_dynamic_matching`:
2.5 for an exact literal rule pattern; else, with a loaded mapper, 2.0 if
any learned pattern matches (1.0 otherwise — the remaining branches are
skipped); else 0.5 for a different rule number, 1.2 for rule text without
a number, 1.0 otherwise. -/
def boostFactor (mapper : RuleMapper) (rule_id : String) (d : String) : ℚ :=
  if rule_id ≠ "" && d ≠ "" then
    let dl := pyLower d
    if (exactRulePats rule_id).any (fun p => pyContains dl p) then 5 / 2
    else if mapper.loaded then
      if (mapper.getRulePatterns rule_id).any (fun p => pyContains dl (pyLower p)) then
        2
      else 1
    else if pyContains dl "rule" then
      match reSearch false false OTHER_RULE_PAT dl with
      | some m => if zfill (groupStr dl m) 3 ≠ rule_id then 1 / 2 else 1
      | none => 6 / 5
    else 1
  else 1

/-- A hit with its boost applied (`float(s) * boost_factor`). -/
def boostHit (mapper : RuleMapper) (rule_id : String) (h : Hit) : Hit :=
  { h with score := h.score * boostFactor mapper rule_id h.doc }

/-- The body of the merge loop: skip already-seen ids, otherwise record
the id as seen and append the boosted hit. -/
def mergeStep (mapper : RuleMapper) (rule_id : String)
    (st : List String × List Hit) (h : Hit) : List String × List Hit :=
  if st.1.contains h.id then st
  else (st.1 ++ [h.id], st.2 ++ [boostHit mapper rule_id h])

/-- The merged, deduplicated, boosted (not yet sorted) hit list of
`_retrieve_with_dynamic_matching`. -/
def rwdmMerged (mapper : RuleMapper) (search : String → Nat → SearchRes)
    (queries : List String) (k : Nat) (rule_id : String) : List Hit :=
  (queries.foldl
    (fun st q => (hitsOf (search q k)).foldl (mergeStep mapper rule_id) st)
    ([], [])).2

/-- Stable insertion of a hit into a descending-by-score list: the new hit
(earlier in the original order) goes before hits of equal score. -/
def insHitDesc (h : Hit) : List Hit → List Hit
  | [] => [h]
  | x :: xs => if x.score ≤ h.score then h :: x :: xs else x :: insHitDesc h xs

/-- Stable descending sort by score.  CPython `sorted(range(n),
key=lambda j: scores[j], reverse=True)` is a stable descending sort of
the index list, and reindexing the four parallel lists by it is the same
as stably sorting the hit list itself, which this performs. -/
def sortHitsDesc : List Hit → List Hit
  | [] => []
  | x :: xs => insHitDesc x (sortHitsDesc xs)

/-- `_retrieve_with_dynamic_matching`, as the list of hits it returns in
order.  `search q k` stands for
`indexer.query(embedder.embed_texts([q]), k=k)`. -/
def rwdmHits (mapper : RuleMapper) (search : String → Nat → SearchRes)
    (queries : List String) (k : Nat) (rule_id : String) : List Hit :=
  sortHitsDesc (rwdmMerged mapper search queries k rule_id)

/-- `_retrieve_with_dynamic_matching`, with the hit list repacked into the
four parallel result lists of the source. -/
def retrieveWithDynamicMatching (mapper : RuleMapper)
    (search : String → Nat → SearchRes) (queries : List String) (k : Nat)
    (rule_id : String) : SearchRes :=
  packHits (rwdmHits mapper search queries k rule_id)

/-- `str((meta or {}).get(k) or "")`. -/
def metaStrOr (m : Meta) (k : String) : String :=
  match dictGet m k with
  | some v => if pyTruthy v then pyValStr v else ""
  | none => ""

/-- `_is_tracker_meta(meta)`. -/
def isTrackerMeta (m : Meta) : Bool :=
  let dt := pyLower (metaStrOr m "doctype")
  let src := pyLower (metaStrOr m "source")
  dt = "tracker_row" || src = "tracker_sheet" || pyContains src "tracker"

/-- `_is_rulebook_meta(meta)`. -/
def isRulebookMeta (m : Meta) : Bool :=
  let dt := pyLower (metaStrOr m "doctype")
  let src := pyLower (metaStrOr m "source")
  let ft := pyLower (metaStrOr m "filetype")
  dt = "rulebook" || ft = "csv" || ft = "xlsx" || pyContains (pyLower src) "rule"

/-- The three-way classification inside `_filter_by_rule_relevance`:
0 = exact match, 1 = different-rule match, 2 = other. -/
def relClassOf (mapper : RuleMapper) (rule_id : String) (d : String) : Nat :=
  let dl := pyLower d
  let pats := ["rule#" ++ rule_id, "rule " ++ rule_id,
    "rule " ++ natRepr (intOfDigits rule_id),
    "rule#" ++ natRepr (intOfDigits rule_id)] ++
    (if mapper.loaded then (mapper.getRulePatterns rule_id).map pyLower else [])
  if pats.any (fun p => pyContains dl p) then 0
  else
    match reSearch false false OTHER_RULE_PAT dl with
    | some m => if zfill (groupStr dl m) 3 ≠ rule_id then 1 else 0
    | none => 2

/-- `_filter_by_rule_relevance(hits, rule_id)`: exact matches first, then
at most 2 different-rule matches, then at most 1 other hit. -/
def filterByRuleRelevance (mapper : RuleMapper) (hits : List Hit)
    (rule_id : String) : List Hit :=
  if rule_id = "" then hits
  else
    (hits.filter (fun h => relClassOf mapper rule_id h.doc = 0)) ++
    (hits.filter (fun h => relClassOf mapper rule_id h.doc = 1)).take 2 ++
    (hits.filter (fun h => relClassOf mapper rule_id h.doc = 2)).take 1

/-- Whether a decoded tracker value counts as non-null and non-blank:
`v is not None and str(v).strip() != ""`. -/
def pyValNonBlank : PyVal → Bool
  | .vnone => false
  | v => pyStrip (pyValStr v) ≠ ""

/-- The number of non-null, non-blank values of a decoded tracker row. -/
def nonNullCount (gs : List (String × PyVal)) : Nat :=
  (gs.filter (fun kv => pyValNonBlank kv.2)).length

/-- The per-hit predicate of `_filter_empty_tracker_rows`: non-tracker
hits are kept; tracker hits are kept when the decoded payload has at
least 5 non-null fields; any exception on the way (JSON parse failure,
`.values()` on a non-dict) keeps the hit. -/
def keepTrackerHit (jparse : String → Option PyVal) (h : Hit) : Bool :=
  if isTrackerMeta h.meta then
    match jparse h.doc with
    | none => true
    | some data =>
      let trackerData :=
        match data with
        | .vdict fs =>
          if dictHasKey fs "tracker_data" then (dictGet fs "tracker_data").getD data
          else data
        | _ => data
      match trackerData with
      | .vdict gs => decide (5 ≤ nonNullCount gs)
      | _ => true
  else true

/-- `_filter_empty_tracker_rows(hits)`. -/
def filterEmptyTrackerRows (jparse : String → Option PyVal)
    (hits : List Hit) : List Hit :=
  hits.filter (keepTrackerHit jparse)

/-- Python `max(s for …)` over a non-empty score list (0 on empty, a case
the source never reaches because `_norm` returns early on empty input). -/
def maxScore : List Hit → ℚ
  | [] => 0
  | h :: t => t.foldl (fun a x => max a x.score) h.score

/-- The `_norm` closure of `retrieve_context`: divide every score of a
non-empty bucket by the bucket maximum (with `max_s or 1.0` replacing a
zero maximum by 1). -/
def normBucket (hits : List Hit) : List Hit :=
  match hits with
  | [] => []
  | _ =>
    let maxS := maxScore hits
    let m := if maxS = 0 then 1 else maxS
    hits.map (fun h => { h with score := h.score / m })

/-- The if/elif/else bucket choice of the partition loop in
`retrieve_context` (true = tracker bucket). -/
def bucketIsTracker (about_tracker : Bool) (m : Meta) : Bool :=
  if isTrackerMeta m then true
  else if isRulebookMeta m then false
  else about_tracker

/-- The result of `retrieve_context`. -/
structure RetrievalOut : Type where
  tracker : List Hit
  rulebook : List Hit
  cls : QueryClass

/-- `retrieve_context(query, …, k_tracker, k_rulebook)`.  The mapper
stands for the loaded singleton, `search` for embed-then-index-query, and
`jparse` for `json.loads`. -/
def retrieve_context (mapper : RuleMapper)
    (search : String → Nat → SearchRes) (jparse : String → Option PyVal)
    (query : String) (k_tracker k_rulebook : Nat) : RetrievalOut :=
  let cls := classify_query mapper query
  let rule_id := cls.rule_id
  let tracker_qs :=
    if cls.about_tracker then expand_tracker_queries query else [query]
  let rule_qs :=
    if cls.about_rule then expand_rulebook_queries mapper query rule_id
    else [query]
  let raw := rwdmHits mapper search (tracker_qs ++ rule_qs)
    (max k_tracker k_rulebook) rule_id
  let trackerHits0 := raw.filter (fun h => bucketIsTracker cls.about_tracker h.meta)
  let ruleHits0 := raw.filter (fun h => ¬ bucketIsTracker cls.about_tracker h.meta)
  let ruleHits1 :=
    if rule_id ≠ "" then filterByRuleRelevance mapper ruleHits0 rule_id
    else ruleHits0
  let trackerHits1 :=
    if rule_id ≠ "" && cls.is_exact_rule then
      let pats := [rule_id, "rule#" ++ rule_id, "rule " ++ rule_id] ++
        (if mapper.loaded then mapper.getRulePatterns rule_id else [])
      trackerHits0.filter (fun h =>
        pats.any (fun p => pyContains (pyLower h.doc) (pyLower p)))
    else trackerHits0
  let trackerHits2 := filterEmptyTrackerRows jparse trackerHits1
  { tracker := normBucket (trackerHits2.take k_tracker),
    rulebook := normBucket (ruleHits1.take k_rulebook),
    cls := cls }

/-! ## context_retriever.py: context assembly -/

/-- Python `sep.join(parts)`. -/
def joinSep (sep : String) : List String → String
  | [] => ""
  | [x] => x
  | x :: xs => x ++ sep ++ joinSep sep xs

/-- Models the f-string format `f"{s:.3f}"`: the score rounded to three
decimal places (ties rounded up; the claims never depend on tie cases). -/
def formatScore3 (q : ℚ) : String :=
  let neg : Bool := q < 0
  let n : Nat := (⌊|q| * 1000 + 1 / 2⌋).toNat
  (if neg && n ≠ 0 then "-" else "") ++
    natRepr (n / 1000) ++ "." ++ zfill (natRepr (n % 1000)) 3

/-- Indentation prefix used by `json.dumps(…, indent=2)`. -/
def jsonIndent (depth : Nat) : String :=
  String.mk (List.replicate (2 * depth) ' ')

mutual

/-- Python `json.dumps(v, ensure_ascii=False, indent=2)` at nesting depth
`depth`. -/
def prettyJson (depth : Nat) : PyVal → String
  | .vstr s => "\"" ++ jsonEscape s ++ "\""
  | .vint n => intRepr n
  | .vfloat q => ratRepr q
  | .vbool b => if b then "true" else "false"
  | .vnone => "null"
  | .vlist xs =>
    if xs.isEmpty then "[]"
    else "[\n" ++ prettyJsonList depth xs ++ "\n" ++ jsonIndent depth ++ "]"
  | .vdict fs =>
    if fs.isEmpty then "\x7b\x7d"
    else "\x7b\n" ++ prettyJsonFields depth fs ++ "\n" ++ jsonIndent depth ++ "\x7d"

def prettyJsonList (depth : Nat) : List PyVal → String
  | [] => ""
  | [x] => jsonIndent (depth + 1) ++ prettyJson (depth + 1) x
  | x :: xs =>
    jsonIndent (depth + 1) ++ prettyJson (depth + 1) x ++ ",\n" ++
      prettyJsonList depth xs

def prettyJsonFields (depth : Nat) : List (String × PyVal) → String
  | [] => ""
  | [(k, v)] =>
    jsonIndent (depth + 1) ++ "\"" ++ jsonEscape k ++ "\": " ++
      prettyJson (depth + 1) v
  | (k, v) :: fs =>
    jsonIndent (depth + 1) ++ "\"" ++ jsonEscape k ++ "\": " ++
      prettyJson (depth + 1) v ++ ",\n" ++ prettyJsonFields depth fs

end

/-- Python `text.replace("\r\n", "\n")` on the character list. -/
def replaceCRLF : List Char → List Char
  | [] => []
  | '\r' :: '\n' :: t => '\n' :: replaceCRLF t
  | c :: t => c :: replaceCRLF t

/-- Start position of the first pattern in the candidate list that
matches, searching with `re.I` and `re.MULTILINE` like the source. -/
def firstMatchStart : List (List RElem) → String → Option Nat
  | [], _ => none
  | p :: ps, t =>
    match reSearch true true p t with
    | some m => some m.mstart
    | none => firstMatchStart ps t

/-- The class `[ #:-]` of the extraction patterns. -/
def sepClass : CClass := .oneOf [' ', '#', ':', '-']

/-- The static candidate patterns of
`_extract_rule_block_from_rulebook_text`, in source order, for the
zero-stripped rule number `num`. -/
def extractPats (num : String) : List (List RElem) :=
  [[RElem.bol, RElem.star .anyNoNl] ++ litStr "Rule" ++
      [RElem.opt (.lit '#'), RElem.star (.lit '0')] ++ litStr num ++
      [RElem.one .notDigit, RElem.star .anyNoNl, RElem.eol],
   [RElem.bol, RElem.star .anyNoNl] ++ litStr "Rule" ++
      [RElem.star sepClass, RElem.star (.lit '0')] ++ litStr num ++
      [RElem.one .notDigit, RElem.star .anyNoNl, RElem.eol],
   [RElem.one (.lit '"'), RElem.star .anyNoNl] ++ litStr "Rule" ++
      [RElem.opt (.lit '#'), RElem.star (.lit '0')] ++ litStr num ++
      [RElem.one .notDigit, RElem.star (.notChar '"'), RElem.one (.lit '"')],
   litStr "Rule" ++ [RElem.opt (.lit '#'), RElem.star (.lit '0')] ++
      litStr num ++ [RElem.one .notDigit, RElem.star .anyNoNl],
   litStr "Rule" ++ [RElem.star sepClass, RElem.star (.lit '0')] ++
      litStr num ++ [RElem.one .notDigit, RElem.star .anyNoNl]]

/-- The dynamic alert-name candidate patterns (one triple per alert name;
`re.escape` makes the alert text literal). -/
def alertPats (num alert : String) : List (List RElem) :=
  [[RElem.bol, RElem.star .anyNoNl] ++ litStr alert ++
      [RElem.star .anyNoNl, RElem.eol],
   litStr alert ++ [RElem.star .anyNoNl] ++ litStr "Rule" ++
      [RElem.star .anyNoNl] ++ litStr num,
   litStr "Rule" ++ [RElem.star .anyNoNl] ++ litStr num ++
      [RElem.star .anyNoNl] ++ litStr alert]

/-- The pattern `(?i)^.*Rule[ #]*\d{1,4}.*$` that finds the next rule
heading. -/
def nextRulePat : List RElem :=
  [RElem.bol, RElem.star .anyNoNl] ++ litStr "Rule" ++
    [RElem.star (.oneOf [' ', '#']), RElem.repGL .digit 1 4,
     RElem.star .anyNoNl, RElem.eol]

/-- `_extract_rule_block_from_rulebook_text(text, rule_id_norm)`. -/
def extractRuleBlock (mapper : RuleMapper) (text : String)
    (rule_id_norm : String) : String :=
  if text = "" || rule_id_norm = "" then text
  else
    let t := String.mk (replaceCRLF text.toList)
    let ridNum := lstripZeros rule_id_norm
    let cands := extractPats ridNum ++
      (if mapper.loaded then
        (mapper.getAlertNames rule_id_norm).flatMap (alertPats ridNum)
      else [])
    match firstMatchStart cands t with
    | none => text
    | some start =>
      let e :=
        match reSearch true true nextRulePat (pyDrop t (start + 50)) with
        | some m => start + 50 + m.mstart
        | none => t.length
      let block := pyStrip (pySlice t start e)
      let block2 :=
        if block.length < 200 then
          match pyRfindBefore t "\nRow" start with
          | some p => pyStrip (pySlice t p e)
          | none => block
        else block
      if block2.length > 10 then block2 else text

/-- Python `v is None` as a boolean. -/
def isVNone : PyVal → Bool
  | .vnone => true
  | _ => false

/-- The tracker-relevance key test of `build_context_block`: the key
contains rule, incident, priority, status, comments or alert. -/
def relevantTrackerKey (k : String) : Bool :=
  ["rule", "incident", "priority", "status", "comments", "alert"].any
    (fun w => pyContains (pyLower k) w)

/-- The three lines appended per tracker hit by `build_context_block`. -/
def renderTrackerHit (jparse : String → Option PyVal) (rid : String)
    (h : Hit) : List String :=
  let src :=
    match dictGet h.meta "source" with
    | some v => if pyTruthy v then pyValStr v else "tracker"
    | none => "tracker"
  let rowRepr :=
    match dictGet h.meta "row_index" with
    | some v => pyValStr v
    | none => "None"
  let pretty :=
    match jparse h.doc with
    | none => pyTake (pyStrip h.doc) 4000
    | some data =>
      let pair :=
        match data with
        | .vdict fs =>
          if dictHasKey fs "tracker_data" then
            ((dictGet fs "tracker_data").getD data,
              (dictGet fs "extracted_rule_info").getD (.vdict []))
          else (data, .vdict [])
        | _ => (data, .vdict [])
      match pair.1 with
      | .vdict gs =>
        let displayData :=
          if rid ≠ "" then
            let relevant := gs.filter
              (fun kv => ¬ isVNone kv.2 && relevantTrackerKey kv.1)
            if ¬ relevant.isEmpty then relevant else gs
          else gs
        let displayData2 :=
          if pyTruthy pair.2 then
            dictSet displayData "_extracted_rule_info" pair.2
          else displayData
        prettyJson 0 (.vdict displayData2)
      | _ => pyTake (pyStrip h.doc) 4000
  ["[score=" ++ formatScore3 h.score ++ "] [src=" ++ src ++ "] [row=" ++
      rowRepr ++ "]", pretty, ""]

/-- The three lines appended per rulebook hit by `build_context_block`. -/
def renderRulebookHit (mapper : RuleMapper) (rid : String) (h : Hit) :
    List String :=
  let src :=
    match dictGet h.meta "source" with
    | some v =>
      if pyTruthy v then pyValStr v
      else
        match dictGet h.meta "filetype" with
        | some w => if pyTruthy w then pyValStr w else "rulebook"
        | none => "rulebook"
    | none =>
      match dictGet h.meta "filetype" with
      | some w => if pyTruthy w then pyValStr w else "rulebook"
      | none => "rulebook"
  let block :=
    if rid ≠ "" && h.doc.length > 100 then
      let extracted := extractRuleBlock mapper h.doc rid
      if extracted.length > 10 then extracted else h.doc
    else h.doc
  ["[score=" ++ formatScore3 h.score ++ "] [src=" ++ src ++ "]",
    pyStrip block, ""]

/-- `build_context_block(results, query)`. -/
def build_context_block (mapper : RuleMapper)
    (jparse : String → Option PyVal) (results : RetrievalOut)
    (query : String) : String :=
  let rid := parse_rule_id mapper query
  let queryCtx : List String :=
    if rid ≠ "" then
      ["=== QUERY CONTEXT ===", "Searching for: Rule " ++ rid] ++
      (if mapper.loaded then
        let alerts := mapper.getAlertNames rid
        if ¬ alerts.isEmpty then
          ["Alert Names: " ++ joinSep ", " alerts]
        else []
      else []) ++ [""]
    else []
  let trLines :=
    if ¬ results.tracker.isEmpty then
      "=== TRACKER DATA ===" ::
        results.tracker.flatMap (renderTrackerHit jparse rid)
    else []
  let rbLines :=
    if ¬ results.rulebook.isEmpty then
      "=== RULEBOOK PROCEDURES ===" ::
        results.rulebook.flatMap (renderRulebookHit mapper rid)
    else []
  let allLines := queryCtx ++ trLines ++ rbLines
  if allLines.isEmpty then "No matching context found."
  else joinSep "\n" allLines

/-! ## Claim C1: dimension mismatch rejects the whole batch -/

/-- C1: once a FaissIndexer has a fixed dimension (its index exists), an
add call with a non-empty 2-D batch whose column count differs raises the
dimension-mismatch error, and the state carried at the raise is exactly
the original state: count(), ids, metadatas and documents are unchanged
and nothing is partially added. -/
theorem add_dim_mismatch_rejected (st : FaissState) (ix : IndexFile)
    (rows cols : Nat) (ids : List String) (metas : List Meta)
    (docs : List String) (hix : st.index = some ix) (hrows : rows ≠ 0)
    (hcols : cols ≠ 0) (hne : cols ≠ ix.d) :
    FaissIndexer.add st (some [rows, cols]) ids metas docs =
      .error ("Embedding dim mismatch: index dim " ++ natRepr ix.d ++
        " vs batch dim " ++ natRepr cols, st) := by
  unfold FaissIndexer.add
  have hprod : ([rows, cols].prod = 0) = False := by
    simp [hrows, hcols]
  simp only [List.prod_cons, List.prod_nil, hix, List.length_cons,
    List.length_nil, List.getD, hprod]
  simp [hrows, hcols, Ne.symm hne]

/-- Witness for C1 at a concrete open index of dimension 3 and a 1×2
batch. -/
theorem add_dim_mismatch_rejected_witness :
    FaissIndexer.add ⟨some ⟨3, 7⟩, ["a"], [[]], ["docA"]⟩ (some [1, 2])
      ["b"] [[]] ["docB"] =
      .error ("Embedding dim mismatch: index dim 3 vs batch dim 2",
        ⟨some ⟨3, 7⟩, ["a"], [[]], ["docA"]⟩) := by
  have h := add_dim_mismatch_rejected ⟨some ⟨3, 7⟩, ["a"], [[]], ["docA"]⟩
    ⟨3, 7⟩ 1 2 ["b"] [[]] ["docB"] rfl (by decide) (by decide) (by decide)
  exact h.trans rfl

/-! ## Claim C3: the empty-result sentinel -/

/-- C3 counterexample: with both buckets empty but a query that parses to
a rule id ("rule 2"), build_context_block returns the query-context
header block, not the sentinel "No matching context found.", so the
claim as stated (sentinel for every query once both buckets are empty)
is false. -/
theorem build_context_block_sentinel_cex :
    build_context_block RuleMapper.fresh (fun _ => none)
      ⟨[], [], ⟨false, true, false, "002", "high", false⟩⟩ "rule 2" ≠
      "No matching context found." := by
  decide

/-- C3 amended: for every query from which no rule id is parsed and every
retrieval result whose tracker and rulebook buckets are both empty,
build_context_block returns exactly the sentinel string
"No matching context found.". -/
theorem build_context_block_sentinel (mapper : RuleMapper)
    (jparse : String → Option PyVal) (results : RetrievalOut)
    (query : String) (hrid : parse_rule_id mapper query = "")
    (ht : results.tracker = []) (hr : results.rulebook = []) :
    build_context_block mapper jparse results query =
      "No matching context found." := by
  unfold build_context_block
  simp [hrid, ht, hr]

/-- Witness for the amended C3 at a concrete rule-free query. -/
theorem build_context_block_sentinel_witness :
    parse_rule_id RuleMapper.fresh "hello" = "" ∧
    build_context_block RuleMapper.fresh (fun _ => none)
      ⟨[], [], ⟨false, true, false, "", "low", false⟩⟩ "hello" =
      "No matching context found." :=
  ⟨by decide,
    build_context_block_sentinel RuleMapper.fresh (fun _ => none)
      ⟨[], [], ⟨false, true, false, "", "low", false⟩⟩ "hello"
      (by decide) rfl rfl⟩

/-! ## Claim C6: rule-id zero padding -/

/-- The length of a string built from a character list. -/
theorem length_string_mk (l : List Char) : (String.mk l).length = l.length :=
  rfl

/-- zfill to width 3 always returns at least 3 characters. -/
theorem zfill_three_le_length (s : String) : 3 ≤ (zfill s 3).length := by
  unfold zfill
  split
  · omega
  · rename_i h
    rw [String.length_append, length_string_mk, List.length_replicate]
    omega


/-- A rule id delivered by the learned fallback is a stored map value. -/
theorem findRule_mem_values (m : RuleMapper) (q rid : String)
    (h : m.findRuleFromQuery q = some rid) :
    ∃ kv ∈ m.alert_to_rule_map, kv.2 = rid := by
  simp only [RuleMapper.findRuleFromQuery] at h
  split at h
  · exact absurd h (by simp)
  · split at h
    · rename_i p hf
      cases h
      exact ⟨p, List.mem_of_find?_eq_some hf, rfl⟩
    · obtain ⟨p, hfp, hpr⟩ := Option.map_eq_some'.1 h
      exact ⟨p, List.mem_of_find?_eq_some hfp, hpr⟩

/-- One artifact record keeps every stored fallback rule id at least
3 characters long (new entries are zfill(3) values). -/
theorem loadOneRuleKey_alert_map (m : RuleMapper) (item : RuleKeyRec) :
    (loadOneRuleKey m item).alert_to_rule_map = m.alert_to_rule_map ∨
    ∃ k, (loadOneRuleKey m item).alert_to_rule_map =
      m.alert_to_rule_map ++ [(k, zfill (pyStrip item.rule_id) 3)] := by
  by_cases h1 : pyStrip item.rule_id = ""
  · left; simp [loadOneRuleKey, h1]
  · by_cases h2 : pyStrip item.alert_name = ""
    · left; simp [loadOneRuleKey, h1, h2]
    · by_cases h3 : (alGet m.alert_to_rule_map
          (pyStrip (pyLower (pyStrip item.alert_name)))).isSome = true
      · left; simp [loadOneRuleKey, h1, h2, h3]
      · right
        exact ⟨pyStrip (pyLower (pyStrip item.alert_name)),
          by simp [loadOneRuleKey, h1, h2, h3]⟩

/-- One artifact record keeps every stored fallback rule id at least
3 characters long (new entries are zfill(3) values). -/
theorem loadOneRuleKey_padded (m : RuleMapper) (item : RuleKeyRec)
    (hm : ∀ kv ∈ m.alert_to_rule_map, 3 ≤ kv.2.length) :
    ∀ kv ∈ (loadOneRuleKey m item).alert_to_rule_map, 3 ≤ kv.2.length := by
  intro kv hkv
  rcases loadOneRuleKey_alert_map m item with he | ⟨k, he⟩
  · exact hm kv (he ▸ hkv)
  · rw [he] at hkv
    rcases List.mem_append.1 hkv with hold | hnew
    · exact hm kv hold
    · rcases List.mem_singleton.1 hnew with rfl
      exact zfill_three_le_length _

/-- Every fallback rule id held by a mapper loaded from artifacts is at
least 3 characters long. -/
theorem loadFromArtifacts_padded (rows : List RuleKeyRec) :
    ∀ kv ∈ (loadFromArtifacts rows).alert_to_rule_map, 3 ≤ kv.2.length := by
  unfold loadFromArtifacts
  simp only
  have main : ∀ (l : List RuleKeyRec) (m : RuleMapper),
      (∀ kv ∈ m.alert_to_rule_map, 3 ≤ kv.2.length) →
      ∀ kv ∈ (l.foldl loadOneRuleKey m).alert_to_rule_map, 3 ≤ kv.2.length := by
    intro l
    induction l with
    | nil => intro m hm; exact hm
    | cons x t ih =>
      intro m hm
      exact ih (loadOneRuleKey m x) (loadOneRuleKey_padded m x hm)
  exact main rows RuleMapper.fresh (by simp [RuleMapper.fresh])

/-- C6 counterexample: a four-digit rule reference is returned as four
digits, so parse_rule_id results are not always exactly 3 digits. -/
theorem parse_rule_id_padding_cex :
    parse_rule_id RuleMapper.fresh "rule 1234" = "1234" ∧
    (parse_rule_id RuleMapper.fresh "rule 1234").length ≠ 3 := by
  decide

/-- C6 amended: every non-empty parse_rule_id result is zero-padded to at
least 3 characters (regex captures are zfill(3)-padded, learned fallback
ids are stored zfill(3)-padded; a 4-digit rule number keeps its 4
digits), and the three normalization examples all yield "002". -/
theorem parse_rule_id_padding :
    (∀ (mapper : RuleMapper) (q : String),
        (∀ kv ∈ mapper.alert_to_rule_map, 3 ≤ kv.2.length) →
        parse_rule_id mapper q ≠ "" →
        3 ≤ (parse_rule_id mapper q).length) ∧
    (∀ rows : List RuleKeyRec,
        ∀ kv ∈ (loadFromArtifacts rows).alert_to_rule_map, 3 ≤ kv.2.length) ∧
    (∀ mapper : RuleMapper,
        parse_rule_id mapper "Rule 2" = "002" ∧
        parse_rule_id mapper "rule#002" = "002" ∧
        parse_rule_id mapper "002" = "002") := by
  refine ⟨?_, loadFromArtifacts_padded, fun mapper => ⟨rfl, rfl, rfl⟩⟩
  intro mapper q hmap hne
  unfold parse_rule_id at hne ⊢
  by_cases hq : q = ""
  · simp [hq] at hne
  · rw [if_neg hq] at hne ⊢
    cases he : reMatch true false EXACT_RULE_PAT q with
    | some mm => simp only [he]; exact zfill_three_le_length _
    | none =>
      simp only [he] at hne ⊢
      cases hs : reSearch true false RULE_PAT q with
      | some mm => simp only [hs]; exact zfill_three_le_length _
      | none =>
        simp only [hs] at hne ⊢
        cases hj : reMatch false false JUST_NUMBER_PAT q with
        | some mm => simp only [hj]; exact zfill_three_le_length _
        | none =>
          simp only [hj] at hne ⊢
          cases hf : mapper.findRuleFromQuery q with
          | some rid =>
            simp only [hf]
            obtain ⟨kv, hkv, hkv2⟩ := findRule_mem_values mapper q rid hf
            exact hkv2 ▸ hmap kv hkv
          | none => simp only [hf] at hne; exact absurd rfl hne

/-- Witness for the amended C6: a concrete query whose parsed id is
non-empty and indeed at least 3 characters long. -/
theorem parse_rule_id_padding_witness :
    (∀ kv ∈ RuleMapper.fresh.alert_to_rule_map, 3 ≤ kv.2.length) ∧
    parse_rule_id RuleMapper.fresh "rule 45" ≠ "" ∧
    3 ≤ (parse_rule_id RuleMapper.fresh "rule 45").length :=
  ⟨by decide, by decide,
    parse_rule_id_padding.1 RuleMapper.fresh "rule 45" (by decide) (by decide)⟩

/-! ## Claim C7: classification flags -/

/-- C7 counterexample: for the bare-number query "007" against an
unloaded mapper, rule-id extraction succeeds and the query has no
procedural keyword, yet about_rule is false (the dynamic-match flag also
requires a loaded mapper), so the claimed implication fails. -/
theorem classify_query_flags_cex :
    parse_rule_id RuleMapper.fresh "007" ≠ "" ∧
    (["rule", "remediation", "procedure", "steps"].any
      (fun w => pyContains (pyLower "007") w)) = false ∧
    (classify_query RuleMapper.fresh "007").about_rule = false := by
  decide

/-- C7 amended: about_rule is true whenever the query contains one of the
generic procedural keywords, and — provided the mapper is loaded — also
whenever rule-id extraction succeeds; about_tracker is true whenever the
query contains an operational-tracker keyword or about_rule is false. -/
theorem classify_query_flags (mapper : RuleMapper) (q : String) :
    ((["rule", "remediation", "procedure", "steps"].any
        (fun w => pyContains (pyLower q) w)) = true →
      (classify_query mapper q).about_rule = true) ∧
    (mapper.loaded = true → parse_rule_id mapper q ≠ "" →
      (classify_query mapper q).about_rule = true) ∧
    ((trackerKeywords.any (fun w => pyContains (pyLower q) w)) = true →
      (classify_query mapper q).about_tracker = true) ∧
    ((classify_query mapper q).about_rule = false →
      (classify_query mapper q).about_tracker = true) := by
  refine ⟨?_, ?_, ?_, ?_⟩
  · intro h
    simp [classify_query, h]
  · intro hl hne
    simp [classify_query, hl, hne]
  · intro h
    simp [classify_query, h]
  · intro h
    simp only [classify_query] at h ⊢
    rw [h]
    simp

/-- Witness for the amended C7: a loaded mapper with a successfully
extracted bare-number id yields about_rule, and a tracker keyword yields
about_tracker. -/
theorem classify_query_flags_witness :
    ((loadFromArtifacts []).loaded = true ∧
      parse_rule_id (loadFromArtifacts []) "007" ≠ "" ∧
      (classify_query (loadFromArtifacts []) "007").about_rule = true) ∧
    ((trackerKeywords.any
        (fun w => pyContains (pyLower "open incident list") w)) = true ∧
      (classify_query RuleMapper.fresh
        "open incident list").about_tracker = true) :=
  ⟨⟨rfl, by decide,
      (classify_query_flags (loadFromArtifacts []) "007").2.1 rfl (by decide)⟩,
    ⟨by decide,
      (classify_query_flags RuleMapper.fresh "open incident list").2.2.1
        (by decide)⟩⟩

/-! ## Claim C8: empty-tracker-row filtering -/

/-- C8: a tracker hit whose document parses as a plain JSON object is
kept iff the object has at least 5 non-null, non-blank values; a tracker
hit whose document fails to parse is kept; and the filter treats each hit
independently (it distributes over concatenation). -/
theorem filter_empty_tracker_rows_spec :
    (∀ (jparse : String → Option PyVal) (h : Hit) (fs : List (String × PyVal)),
        isTrackerMeta h.meta = true →
        jparse h.doc = some (PyVal.vdict fs) →
        dictHasKey fs "tracker_data" = false →
        filterEmptyTrackerRows jparse [h] =
          if 5 ≤ nonNullCount fs then [h] else []) ∧
    (∀ (jparse : String → Option PyVal) (h : Hit),
        isTrackerMeta h.meta = true →
        jparse h.doc = none →
        filterEmptyTrackerRows jparse [h] = [h]) ∧
    (∀ (jparse : String → Option PyVal) (l1 l2 : List Hit),
        filterEmptyTrackerRows jparse (l1 ++ l2) =
          filterEmptyTrackerRows jparse l1 ++ filterEmptyTrackerRows jparse l2) := by
  refine ⟨?_, ?_, ?_⟩
  · intro jparse h fs htr hj hkey
    simp only [filterEmptyTrackerRows, List.filter, keepTrackerHit, htr, hj, hkey,
      if_true, Bool.false_eq_true, if_false]
    split
    · rename_i hcount
      rw [if_pos (by simpa using hcount)]
    · rename_i hcount
      rw [if_neg (by simpa using hcount)]
  · intro jparse h htr hj
    simp [filterEmptyTrackerRows, List.filter, keepTrackerHit, htr, hj]
  · intro jparse l1 l2
    simp [filterEmptyTrackerRows]

/-- Witness for C8 at the claimed boundary: a tracker payload with
exactly 4 non-null fields is dropped, one with exactly 5 is kept, and a
non-JSON payload is kept. -/
theorem filter_empty_tracker_rows_spec_witness :
    filterEmptyTrackerRows
      (fun _ => some (PyVal.vdict [("a", .vstr "x"), ("b", .vint 0),
        ("c", .vbool false), ("d", .vstr " "), ("e", .vnone), ("f", .vstr "y")]))
      [⟨"i", 1, "doc4", [("doctype", .vstr "tracker_row")]⟩] = [] ∧
    filterEmptyTrackerRows
      (fun _ => some (PyVal.vdict [("a", .vstr "x"), ("b", .vint 0),
        ("c", .vbool false), ("d", .vstr "z"), ("e", .vnone), ("f", .vstr "y")]))
      [⟨"i", 1, "doc5", [("doctype", .vstr "tracker_row")]⟩] =
      [⟨"i", 1, "doc5", [("doctype", .vstr "tracker_row")]⟩] ∧
    filterEmptyTrackerRows (fun _ => none)
      [⟨"i", 1, "not json", [("doctype", .vstr "tracker_row")]⟩] =
      [⟨"i", 1, "not json", [("doctype", .vstr "tracker_row")]⟩] := by
  refine ⟨?_, ?_, ?_⟩
  · exact (filter_empty_tracker_rows_spec.1 _ _ _ (by decide) rfl (by decide)).trans
      (if_neg (by decide))
  · exact (filter_empty_tracker_rows_spec.1 _ _ _ (by decide) rfl (by decide)).trans
      (if_pos (by decide))
  · exact filter_empty_tracker_rows_spec.2.1 _ _ (by decide) rfl

/-! ## Claim C2: persist/load round trip -/

/-- A successful add that leaves the index absent changed nothing (only
the two early-return paths keep the index absent). -/
theorem add_ok_index_none (st st2 : FaissState) (emb : EmbArg)
    (ids : List String) (metas : List Meta) (docs : List String)
    (hok : FaissIndexer.add st emb ids metas docs = .ok st2)
    (hnone : st2.index = none) : st2 = st := by
  unfold FaissIndexer.add at hok
  split at hok
  · cases hok; rfl
  · split at hok
    · cases hok; rfl
    · split at hok
      · cases hok
      · split at hok
        · simp only [] at hok
          split at hok
          · cases hok
          · cases hok; cases hnone
        · simp only [] at hok
          split at hok
          · cases hok
          · cases hok; cases hnone

/-- A successful add sequence that ends with no index never had a
non-empty batch: the final state is the initial one. -/
theorem runAdds_index_none (batches : List AddBatch) :
    ∀ (s0 st : FaissState), runAdds s0 batches = .ok st →
    st.index = none → st = s0 := by
  induction batches with
  | nil => intro s0 st h hn; cases h; rfl
  | cons b bs ih =>
    intro s0 st h hn
    unfold runAdds at h
    revert h
    cases hadd : FaissIndexer.add s0 b.emb b.ids b.metas b.docs with
    | ok s1 =>
      intro h
      have h1 := ih s1 st h hn
      have h2 : s1.index = none := h1 ▸ hn
      exact h1.trans (add_ok_index_none s0 s1 b.emb b.ids b.metas b.docs hadd h2)
    | error e => intro h; cases h

/-- C2: an index built from any starting directory by a sequence of
successful add calls, persisted, and reopened from the same directory,
reproduces ids, metadatas, documents and count() exactly. -/
theorem persist_load_roundtrip (storage0 : Storage) (batches : List AddBatch)
    (st : FaissState)
    (h : runAdds (FaissIndexer.init storage0) batches = .ok st) :
    (FaissIndexer.init (FaissIndexer.persist st storage0)).ids = st.ids ∧
    (FaissIndexer.init (FaissIndexer.persist st storage0)).metadatas = st.metadatas ∧
    (FaissIndexer.init (FaissIndexer.persist st storage0)).documents = st.documents ∧
    FaissIndexer.count (FaissIndexer.init (FaissIndexer.persist st storage0)) =
      FaissIndexer.count st := by
  cases hix : st.index with
  | some ix =>
    constructor
    · simp [FaissIndexer.persist, FaissIndexer.init, hix]
    constructor
    · simp [FaissIndexer.persist, FaissIndexer.init, hix]
    constructor
    · simp [FaissIndexer.persist, FaissIndexer.init, hix]
    · simp [FaissIndexer.persist, FaissIndexer.init, FaissIndexer.count, hix]
  | none =>
    have hst : st = FaissIndexer.init storage0 :=
      runAdds_index_none batches (FaissIndexer.init storage0) st h hix
    have hpersist : FaissIndexer.persist st storage0 = storage0 := by
      simp [FaissIndexer.persist, hix]
    rw [hpersist, ← hst]
    exact ⟨rfl, rfl, rfl, rfl⟩

/-- Witness for C2: a concrete one-batch build from an empty directory. -/
theorem persist_load_roundtrip_witness :
    runAdds (FaissIndexer.init ⟨none, none⟩)
      [⟨some [1, 2], ["a"], [[]], ["docA"]⟩] =
      .ok ⟨some ⟨2, 1⟩, ["a"],
        [[("doc_length", PyVal.vint 4), ("has_rule_content", PyVal.vbool false)]],
        ["docA"]⟩ ∧
    ((FaissIndexer.init (FaissIndexer.persist
        ⟨some ⟨2, 1⟩, ["a"],
          [[("doc_length", PyVal.vint 4), ("has_rule_content", PyVal.vbool false)]],
          ["docA"]⟩ ⟨none, none⟩)).ids = ["a"] ∧
      FaissIndexer.count (FaissIndexer.init (FaissIndexer.persist
        ⟨some ⟨2, 1⟩, ["a"],
          [[("doc_length", PyVal.vint 4), ("has_rule_content", PyVal.vbool false)]],
          ["docA"]⟩ ⟨none, none⟩)) = 1) := by
  constructor
  · rfl
  · have h := persist_load_roundtrip ⟨none, none⟩
      [⟨some [1, 2], ["a"], [[]], ["docA"]⟩]
      ⟨some ⟨2, 1⟩, ["a"],
        [[("doc_length", PyVal.vint 4), ("has_rule_content", PyVal.vbool false)]],
        ["docA"]⟩ rfl
    exact ⟨h.1, h.2.2.2⟩

/-! ## Claim C10: metadata flattening and enrichment invariant -/

/-- Every entry of a dict after an assignment is an old entry or the
newly assigned binding. -/
theorem mem_dictSet (d : Meta) (k : String) (v : PyVal) :
    ∀ kv ∈ dictSet d k v, kv ∈ d ∨ kv = (k, v) := by
  intro kv hkv
  unfold dictSet at hkv
  split at hkv
  · obtain ⟨p, hp, he⟩ := List.mem_map.1 hkv
    by_cases hpk : p.1 = k
    · rw [if_pos hpk] at he; exact Or.inr he.symm
    · rw [if_neg hpk] at he; exact Or.inl (he ▸ hp)
  · rcases List.mem_append.1 hkv with h1 | h2
    · exact Or.inl h1
    · exact Or.inr (List.mem_singleton.1 h2)

/-- In-place assignment does not disturb lookups of other keys. -/
theorem find?_mapSet_other (k k2 : String) (v : PyVal) (hne : k2 ≠ k) :
    ∀ t : Meta,
      List.find? (fun p => p.1 = k2)
        (t.map (fun p => if p.1 = k then (k, v) else p)) =
      List.find? (fun p => p.1 = k2) t := by
  intro t
  induction t with
  | nil => rfl
  | cons p t ih =>
    rw [List.map_cons]
    by_cases hpk : p.1 = k
    · rw [if_pos hpk,
        List.find?_cons_of_neg _ (by simp [Ne.symm hne]),
        List.find?_cons_of_neg _ (by simp [hpk, Ne.symm hne])]
      exact ih
    · rw [if_neg hpk]
      by_cases hpk2 : p.1 = k2
      · rw [List.find?_cons_of_pos _ (by simpa using hpk2),
          List.find?_cons_of_pos _ (by simpa using hpk2)]
      · rw [List.find?_cons_of_neg _ (by simpa using hpk2),
          List.find?_cons_of_neg _ (by simpa using hpk2)]
        exact ih

/-- In-place assignment makes the assigned binding the first (and only)
match for its key. -/
theorem find?_mapSet_same (k : String) (v : PyVal) :
    ∀ t : Meta, t.any (fun p => p.1 = k) = true →
      List.find? (fun p => p.1 = k)
        (t.map (fun p => if p.1 = k then (k, v) else p)) = some (k, v) := by
  intro t
  induction t with
  | nil => intro h; cases h
  | cons p t ih =>
    intro hany
    rw [List.map_cons]
    by_cases hpk : p.1 = k
    · rw [if_pos hpk, List.find?_cons_of_pos _ (by simp)]
    · rw [if_neg hpk, List.find?_cons_of_neg _ (by simpa using hpk)]
      refine ih ?_
      rcases List.any_eq_true.1 hany with ⟨x, hx, hxk⟩
      rcases List.mem_cons.1 hx with rfl | hxt
      · exact absurd (by simpa using hxk) hpk
      · exact List.any_eq_true.2 ⟨x, hxt, hxk⟩

/-- Reading back the key just assigned returns the assigned value. -/
theorem dictGet_dictSet_same (d : Meta) (k : String) (v : PyVal) :
    dictGet (dictSet d k v) k = some v := by
  unfold dictSet
  split
  · rename_i hany
    unfold dictGet
    rw [find?_mapSet_same k v d hany]
  · rename_i hany
    unfold dictGet
    rw [List.find?_append]
    have hnone : List.find? (fun p => p.1 = k) d = none := by
      rw [List.find?_eq_none]
      intro p hp
      simp only [decide_eq_true_eq]
      intro hpk
      exact hany (List.any_eq_true.2 ⟨p, hp, by simpa using hpk⟩)
    rw [hnone]
    simp [List.find?]

/-- Assigning one key does not change reads of a different key. -/
theorem dictGet_dictSet_other (d : Meta) (k : String) (v : PyVal)
    (k2 : String) (hne : k2 ≠ k) :
    dictGet (dictSet d k v) k2 = dictGet d k2 := by
  unfold dictSet
  split
  · unfold dictGet
    rw [find?_mapSet_other k k2 v hne d]
  · unfold dictGet
    rw [List.find?_append]
    have h1 : List.find? (fun p => p.1 = k2) [(k, v)] = none := by
      simp [List.find?, Ne.symm hne]
    rw [h1]
    cases List.find? (fun p => p.1 = k2) d <;> rfl

/-- The value written by the _safe_meta loop for an original value. -/
def safeMetaVal (v : PyVal) : PyVal :=
  if v.isScalar then v else PyVal.vstr (jsonDumps v)

/-- Every entry accumulated by a fold of dict assignments comes from the
initial dict or from one of the folded pairs. -/
theorem mem_foldl_dictSet (f : PyVal → PyVal) :
    ∀ (l acc : Meta) (kv : String × PyVal),
      kv ∈ l.foldl (fun s p => dictSet s p.1 (f p.2)) acc →
      kv ∈ acc ∨ ∃ p ∈ l, kv = (p.1, f p.2) := by
  intro l
  induction l with
  | nil => intro acc kv h; exact Or.inl h
  | cons x t ih =>
    intro acc kv h
    rcases ih (dictSet acc x.1 (f x.2)) kv h with hacc | ⟨p, hp, he⟩
    · rcases mem_dictSet _ _ _ _ hacc with h1 | h2
      · exact Or.inl h1
      · exact Or.inr ⟨x, List.mem_cons_self x t, h2⟩
    · exact Or.inr ⟨p, List.mem_cons_of_mem _ hp, he⟩

/-- Every entry of a flattened metadata dict originates from an entry of
the input, with non-scalar values replaced by their JSON string. -/
theorem safeMeta_spec (meta : Meta) :
    ∀ kv ∈ safeMeta meta, ∃ v0, (kv.1, v0) ∈ meta ∧ kv.2 = safeMetaVal v0 := by
  intro kv hkv
  rcases mem_foldl_dictSet safeMetaVal meta [] kv (by
      simpa [safeMeta, safeMetaVal] using hkv) with h | ⟨p, hp, he⟩
  · cases h
  · exact ⟨p.2, by simpa [he] using hp, by rw [he]⟩

/-- The replacement value is always scalar. -/
theorem safeMetaVal_isScalar (v : PyVal) : (safeMetaVal v).isScalar = true := by
  unfold safeMetaVal
  split
  · assumption
  · rfl

/-- Every value stored by _safe_meta is scalar. -/
theorem safeMeta_scalar (meta : Meta) :
    ∀ kv ∈ safeMeta meta, kv.2.isScalar = true := by
  intro kv hkv
  obtain ⟨v0, _, he⟩ := safeMeta_spec meta kv hkv
  rw [he]
  exact safeMetaVal_isScalar v0

/-- All values of an enhanced metadata dict are scalar. -/
theorem enhanceMeta_scalar (m : Meta) (doc : String) :
    ∀ kv ∈ enhanceMeta m doc, kv.2.isScalar = true := by
  intro kv hkv
  unfold enhanceMeta at hkv
  rcases mem_dictSet _ _ _ _ hkv with h1 | h2
  · rcases mem_dictSet _ _ _ _ h1 with h3 | h4
    · exact safeMeta_scalar m kv h3
    · rw [h4]; rfl
  · rw [h2]; rfl

/-- An enhanced metadata dict records the paired document length. -/
theorem enhanceMeta_doc_length (m : Meta) (doc : String) :
    dictGet (enhanceMeta m doc) "doc_length" = some (PyVal.vint doc.length) := by
  unfold enhanceMeta
  rw [dictGet_dictSet_other _ _ _ _ (by decide), dictGet_dictSet_same]

/-- An enhanced metadata dict records the rule-content flag. -/
theorem enhanceMeta_has_rule (m : Meta) (doc : String) :
    dictGet (enhanceMeta m doc) "has_rule_content" =
      some (PyVal.vbool (hasRuleContent doc)) := by
  unfold enhanceMeta
  rw [dictGet_dictSet_same]

/-- A successful add either changes nothing (empty batch) or appends the
enhanced metadata and the documents. -/
theorem add_ok_cases (st st2 : FaissState) (emb : EmbArg)
    (ids : List String) (metas : List Meta) (docs : List String)
    (hok : FaissIndexer.add st emb ids metas docs = .ok st2) :
    st2 = st ∨
    (st2.metadatas = st.metadatas ++
        (metas.zip docs).map (fun md => enhanceMeta md.1 md.2) ∧
      st2.documents = st.documents ++ docs) := by
  unfold FaissIndexer.add at hok
  split at hok
  · cases hok; exact Or.inl rfl
  · split at hok
    · cases hok; exact Or.inl rfl
    · split at hok
      · cases hok
      · split at hok
        · simp only [] at hok
          split at hok
          · cases hok
          · cases hok; exact Or.inr ⟨rfl, rfl⟩
        · simp only [] at hok
          split at hok
          · cases hok
          · cases hok; exact Or.inr ⟨rfl, rfl⟩

/-- Every raise in add happens before mutation: the state carried by an
error is the input state. -/
theorem add_error_state (st : FaissState) (emb : EmbArg)
    (ids : List String) (metas : List Meta) (docs : List String)
    (e : String × FaissState)
    (herr : FaissIndexer.add st emb ids metas docs = .error e) :
    e.2 = st := by
  unfold FaissIndexer.add at herr
  split at herr
  · cases herr
  · split at herr
    · cases herr
    · split at herr
      · cases herr; rfl
      · split at herr
        · simp only [] at herr
          split at herr
          · cases herr; rfl
          · cases herr
        · simp only [] at herr
          split at herr
          · cases herr; rfl
          · cases herr

/-- Zipping the enhanced metadata list back with its documents pairs each
enhanced dict with the document it was built from. -/
theorem zip_enhanced (metas : List Meta) :
    ∀ docs : List String, metas.length = docs.length →
      ((metas.zip docs).map (fun md => enhanceMeta md.1 md.2)).zip docs =
        (metas.zip docs).map (fun md => (enhanceMeta md.1 md.2, md.2)) := by
  induction metas with
  | nil => intro docs _; simp
  | cons m t ih =>
    intro docs hlen
    cases docs with
    | nil => cases hlen
    | cons d ds =>
      simp only [List.zip_cons_cons, List.map_cons]
      rw [ih ds (by simpa using hlen)]

/-- C10: starting from a fresh indexer, after any sequence of add calls
(each passing metadata and document lists of equal length, exceptions
caught by the caller) the stored metadata and document lists stay
aligned, every stored metadata value is scalar, and every stored
metadata dict carries doc_length = len(paired document) and the
has_rule_content flag of the paired document; moreover _safe_meta
replaces every non-scalar value by its json.dumps string and keeps
scalars unchanged. -/
theorem add_metadata_invariant (batches : List AddBatch)
    (hlen : ∀ b ∈ batches, b.metas.length = b.docs.length) :
    ((runAddsCaught (FaissIndexer.init ⟨none, none⟩) batches).metadatas.length =
      (runAddsCaught (FaissIndexer.init ⟨none, none⟩) batches).documents.length ∧
     ∀ p ∈ (runAddsCaught (FaissIndexer.init ⟨none, none⟩) batches).metadatas.zip
        (runAddsCaught (FaissIndexer.init ⟨none, none⟩) batches).documents,
       (∀ kv ∈ p.1, kv.2.isScalar = true) ∧
       dictGet p.1 "doc_length" = some (PyVal.vint p.2.length) ∧
       dictGet p.1 "has_rule_content" =
         some (PyVal.vbool (hasRuleContent p.2))) ∧
    (∀ (meta : Meta) (kv : String × PyVal), kv ∈ safeMeta meta →
      ∃ v0, (kv.1, v0) ∈ meta ∧ kv.2 = safeMetaVal v0) := by
  refine ⟨?_, safeMeta_spec⟩
  have main : ∀ (bs : List AddBatch) (st : FaissState),
      (∀ b ∈ bs, b.metas.length = b.docs.length) →
      st.metadatas.length = st.documents.length →
      (∀ p ∈ st.metadatas.zip st.documents,
        (∀ kv ∈ p.1, kv.2.isScalar = true) ∧
        dictGet p.1 "doc_length" = some (PyVal.vint p.2.length) ∧
        dictGet p.1 "has_rule_content" =
          some (PyVal.vbool (hasRuleContent p.2))) →
      (runAddsCaught st bs).metadatas.length =
        (runAddsCaught st bs).documents.length ∧
      ∀ p ∈ (runAddsCaught st bs).metadatas.zip (runAddsCaught st bs).documents,
        (∀ kv ∈ p.1, kv.2.isScalar = true) ∧
        dictGet p.1 "doc_length" = some (PyVal.vint p.2.length) ∧
        dictGet p.1 "has_rule_content" =
          some (PyVal.vbool (hasRuleContent p.2)) := by
    intro bs
    induction bs with
    | nil => intro st _ h1 h2; exact ⟨h1, h2⟩
    | cons b t ih =>
      intro st hbs h1 h2
      have hb : b.metas.length = b.docs.length := hbs b (List.mem_cons_self b t)
      have ht : ∀ x ∈ t, x.metas.length = x.docs.length :=
        fun x hx => hbs x (List.mem_cons_of_mem b hx)
      unfold runAddsCaught
      cases hadd : FaissIndexer.add st b.emb b.ids b.metas b.docs with
      | error e =>
        have he2 : e.2 = st := add_error_state st b.emb b.ids b.metas b.docs e hadd
        show (runAddsCaught e.2 t).metadatas.length =
            (runAddsCaught e.2 t).documents.length ∧
          ∀ p ∈ (runAddsCaught e.2 t).metadatas.zip (runAddsCaught e.2 t).documents,
            (∀ kv ∈ p.1, kv.2.isScalar = true) ∧
            dictGet p.1 "doc_length" = some (PyVal.vint p.2.length) ∧
            dictGet p.1 "has_rule_content" =
              some (PyVal.vbool (hasRuleContent p.2))
        rw [he2]
        exact ih st ht h1 h2
      | ok st2 =>
        rcases add_ok_cases st st2 b.emb b.ids b.metas b.docs hadd with rfl | ⟨hm, hd⟩
        · exact ih st2 ht h1 h2
        · have hnew1 : st2.metadatas.length = st2.documents.length := by
            rw [hm, hd]
            simp only [List.length_append, List.length_map, List.length_zip]
            omega
          have hnew2 : ∀ p ∈ st2.metadatas.zip st2.documents,
              (∀ kv ∈ p.1, kv.2.isScalar = true) ∧
              dictGet p.1 "doc_length" = some (PyVal.vint p.2.length) ∧
              dictGet p.1 "has_rule_content" =
                some (PyVal.vbool (hasRuleContent p.2)) := by
            rw [hm, hd, List.zip_append h1]
            intro p hp
            rcases List.mem_append.1 hp with hold | hnew
            · exact h2 p hold
            · rw [zip_enhanced b.metas b.docs hb] at hnew
              obtain ⟨md, _, he⟩ := List.mem_map.1 hnew
              rw [← he]
              exact ⟨enhanceMeta_scalar md.1 md.2,
                enhanceMeta_doc_length md.1 md.2, enhanceMeta_has_rule md.1 md.2⟩
          exact ih st2 ht hnew1 hnew2
  exact main batches (FaissIndexer.init ⟨none, none⟩) hlen rfl (by simp [FaissIndexer.init])

/-- Witness for C10: one concrete batch with a non-scalar metadata value;
the stored metadata is flattened, aligned and carries the two keys. -/
theorem add_metadata_invariant_witness :
    (∀ b ∈ [(⟨some [1, 2], ["a"], [[("k", PyVal.vlist [PyVal.vint 3])]],
        ["Rule 7"]⟩ : AddBatch)], b.metas.length = b.docs.length) ∧
    (∀ p ∈ (runAddsCaught (FaissIndexer.init ⟨none, none⟩)
        [⟨some [1, 2], ["a"], [[("k", PyVal.vlist [PyVal.vint 3])]],
          ["Rule 7"]⟩]).metadatas.zip
        (runAddsCaught (FaissIndexer.init ⟨none, none⟩)
        [⟨some [1, 2], ["a"], [[("k", PyVal.vlist [PyVal.vint 3])]],
          ["Rule 7"]⟩]).documents,
      (∀ kv ∈ p.1, kv.2.isScalar = true) ∧
      dictGet p.1 "doc_length" = some (PyVal.vint p.2.length) ∧
      dictGet p.1 "has_rule_content" =
        some (PyVal.vbool (hasRuleContent p.2))) := by
  refine ⟨by simp, ?_⟩
  exact (add_metadata_invariant
    [⟨some [1, 2], ["a"], [[("k", PyVal.vlist [PyVal.vint 3])]], ["Rule 7"]⟩]
    (by simp)).1.2

/-! ## Claim C4: merge deduplication, first occurrence wins -/

/-- Boosting changes only the score. -/
theorem boostHit_id (mapper : RuleMapper) (rule_id : String) (h : Hit) :
    (boostHit mapper rule_id h).id = h.id := rfl

/-- Unpacking a packed hit list is the identity. -/
theorem hitsOf_packHits (l : List Hit) : hitsOf (packHits l) = l := by
  induction l with
  | nil => rfl
  | cons h t ih =>
    simp only [hitsOf, packHits, List.map_cons, List.zip_cons_cons] at ih ⊢
    rw [ih]

/-- The per-query merge loop is the merge loop over the concatenated
per-variant hit stream. -/
theorem rwdmMerged_eq_stream (mapper : RuleMapper)
    (search : String → Nat → SearchRes) (queries : List String) (k : Nat)
    (rule_id : String) :
    rwdmMerged mapper search queries k rule_id =
      ((queries.flatMap (fun q => hitsOf (search q k))).foldl
        (mergeStep mapper rule_id) ([], [])).2 := by
  unfold rwdmMerged
  congr 1
  have main : ∀ (qs : List String) (st : List String × List Hit),
      qs.foldl (fun st q => (hitsOf (search q k)).foldl (mergeStep mapper rule_id) st) st =
      (qs.flatMap (fun q => hitsOf (search q k))).foldl (mergeStep mapper rule_id) st := by
    intro qs
    induction qs with
    | nil => intro st; rfl
    | cons q t ih =>
      intro st
      rw [List.foldl_cons, List.flatMap_cons, List.foldl_append, ih]
  exact main queries ([], [])

/-- Specification of the merge loop: drop hits whose id was seen, boost
and keep first occurrences. -/
def dedupBoost (mapper : RuleMapper) (rule_id : String) (seen : List String) :
    List Hit → List Hit
  | [] => []
  | h :: t =>
    if seen.contains h.id then dedupBoost mapper rule_id seen t
    else boostHit mapper rule_id h :: dedupBoost mapper rule_id (seen ++ [h.id]) t

/-- The merge fold computes dedupBoost (the seen set is exactly the ids
accumulated so far). -/
theorem foldl_mergeStep_eq (mapper : RuleMapper) (rule_id : String) :
    ∀ (l : List Hit) (seen : List String) (acc : List Hit),
      seen = acc.map Hit.id →
      (l.foldl (mergeStep mapper rule_id) (seen, acc)).2 =
        acc ++ dedupBoost mapper rule_id seen l := by
  intro l
  induction l with
  | nil => intro seen acc hseen; simp [dedupBoost]
  | cons h t ih =>
    intro seen acc hseen
    rw [List.foldl_cons]
    by_cases hc : seen.contains h.id
    · have hstep : mergeStep mapper rule_id (seen, acc) h = (seen, acc) := by
        unfold mergeStep; rw [if_pos hc]
      rw [hstep]
      unfold dedupBoost
      rw [if_pos hc]
      exact ih seen acc hseen
    · have hstep : mergeStep mapper rule_id (seen, acc) h =
          (seen ++ [h.id], acc ++ [boostHit mapper rule_id h]) := by
        unfold mergeStep; rw [if_neg hc]
      rw [hstep]
      unfold dedupBoost
      rw [if_neg hc]
      have hseen2 : seen ++ [h.id] =
          (acc ++ [boostHit mapper rule_id h]).map Hit.id := by
        rw [List.map_append, hseen]; rfl
      rw [ih (seen ++ [h.id]) (acc ++ [boostHit mapper rule_id h]) hseen2]
      simp

/-- dedupBoost output ids are distinct and disjoint from the seen set. -/
theorem dedupBoost_nodup (mapper : RuleMapper) (rule_id : String) :
    ∀ (l : List Hit) (seen : List String),
      ((dedupBoost mapper rule_id seen l).map Hit.id).Nodup ∧
      ∀ i ∈ (dedupBoost mapper rule_id seen l).map Hit.id, ¬ i ∈ seen := by
  intro l
  induction l with
  | nil => intro seen; simp [dedupBoost]
  | cons h t ih =>
    intro seen
    unfold dedupBoost
    by_cases hc : seen.contains h.id
    · rw [if_pos hc]; exact ih seen
    · rw [if_neg hc]
      obtain ⟨ihn, ihs⟩ := ih (seen ++ [h.id])
      simp only [List.map_cons, boostHit_id]
      constructor
      · refine List.Nodup.cons ?_ ihn
        intro hmem
        exact ihs h.id hmem (by simp)
      · intro i hi hiseen
        rcases List.mem_cons.1 hi with rfl | hitl
        · exact absurd hiseen (by simpa using hc)
        · exact ihs i hitl (List.mem_append_left _ hiseen)

/-- Every dedupBoost output hit is the boost of the first occurrence of
its id in the input stream. -/
theorem dedupBoost_first (mapper : RuleMapper) (rule_id : String) :
    ∀ (l : List Hit) (seen : List String) (h : Hit),
      h ∈ dedupBoost mapper rule_id seen l →
      ¬ h.id ∈ seen ∧
      ∃ h0, l.find? (fun x => x.id == h.id) = some h0 ∧
        h = boostHit mapper rule_id h0 := by
  intro l
  induction l with
  | nil => intro seen h hmem; cases hmem
  | cons x t ih =>
    intro seen h hmem
    unfold dedupBoost at hmem
    by_cases hc : seen.contains x.id
    · rw [if_pos hc] at hmem
      obtain ⟨hns, h0, hfind, hb⟩ := ih seen h hmem
      have hneq : ¬ (x.id == h.id) = true := by
        intro hxz
        have hxh : x.id = h.id := by simpa using hxz
        rw [hxh] at hc
        exact hns (by simpa using hc)
      exact ⟨hns, h0,
        by rw [@List.find?_cons_of_neg Hit (fun y => y.id == h.id) x t hneq, hfind], hb⟩
    · rw [if_neg hc] at hmem
      rcases List.mem_cons.1 hmem with rfl | htl
      · refine ⟨by simpa using hc, x, ?_, rfl⟩
        rw [@List.find?_cons_of_pos Hit
          (fun y => y.id == (boostHit mapper rule_id x).id) x t
          (by simp [boostHit_id])]
      · obtain ⟨hns, h0, hfind, hb⟩ := ih (seen ++ [x.id]) h htl
        have hneq : ¬ x.id = h.id := by
          intro hxh
          exact hns (List.mem_append_right _ (by simp [hxh]))
        refine ⟨fun hs => hns (List.mem_append_left _ hs), h0, ?_, hb⟩
        rw [@List.find?_cons_of_neg Hit (fun y => y.id == h.id) x t
          (by simpa using hneq), hfind]

/-- No id of the stream is lost: every input id is either already seen or
present in the dedupBoost output. -/
theorem dedupBoost_covers (mapper : RuleMapper) (rule_id : String) :
    ∀ (l : List Hit) (seen : List String) (h0 : Hit), h0 ∈ l →
      h0.id ∈ seen ∨ h0.id ∈ (dedupBoost mapper rule_id seen l).map Hit.id := by
  intro l
  induction l with
  | nil => intro seen h0 hmem; cases hmem
  | cons x t ih =>
    intro seen h0 hmem
    unfold dedupBoost
    by_cases hc : seen.contains x.id
    · rw [if_pos hc]
      rcases List.mem_cons.1 hmem with rfl | htl
      · exact Or.inl (by simpa using hc)
      · exact ih seen h0 htl
    · rw [if_neg hc]
      simp only [List.map_cons, boostHit_id]
      rcases List.mem_cons.1 hmem with rfl | htl
      · exact Or.inr (List.mem_cons_self _ _)
      · rcases ih (seen ++ [x.id]) h0 htl with hs | hout
        · rcases List.mem_append.1 hs with h1 | h2
          · exact Or.inl h1
          · exact Or.inr (by simp [List.mem_singleton.1 h2])
        · exact Or.inr (List.mem_cons_of_mem _ hout)

/-- Inserting into the descending list is a permutation of consing. -/
theorem insHitDesc_perm (h : Hit) :
    ∀ l : List Hit, List.Perm (insHitDesc h l) (h :: l) := by
  intro l
  induction l with
  | nil => exact List.Perm.refl _
  | cons x xs ih =>
    unfold insHitDesc
    by_cases hc : x.score ≤ h.score
    · rw [if_pos hc]
    · rw [if_neg hc]
      exact (List.Perm.cons x ih).trans (List.Perm.swap h x xs)

/-- The stable descending sort is a permutation. -/
theorem sortHitsDesc_perm : ∀ l : List Hit, List.Perm (sortHitsDesc l) l := by
  intro l
  induction l with
  | nil => exact List.Perm.refl _
  | cons x xs ih =>
    unfold sortHitsDesc
    exact (insHitDesc_perm x (sortHitsDesc xs)).trans (List.Perm.cons x ih)

/-- Insertion preserves descending sortedness. -/
theorem insHitDesc_sorted (h : Hit) :
    ∀ l : List Hit, l.Pairwise (fun a b => b.score ≤ a.score) →
      (insHitDesc h l).Pairwise (fun a b => b.score ≤ a.score) := by
  intro l
  induction l with
  | nil => intro _; simp [insHitDesc]
  | cons x xs ih =>
    intro hl
    unfold insHitDesc
    by_cases hc : x.score ≤ h.score
    · rw [if_pos hc]
      refine List.Pairwise.cons ?_ hl
      intro y hy
      rcases List.mem_cons.1 hy with rfl | hyx
      · exact hc
      · exact le_trans ((List.pairwise_cons.1 hl).1 y hyx) hc
    · rw [if_neg hc]
      obtain ⟨hx, hxs⟩ := List.pairwise_cons.1 hl
      refine List.Pairwise.cons ?_ (ih hxs)
      intro y hy
      have hy2 : y ∈ h :: xs := (insHitDesc_perm h xs).mem_iff.1 hy
      rcases List.mem_cons.1 hy2 with rfl | hyx
      · exact le_of_not_le hc
      · exact hx y hyx

/-- The sort output is descending in score. -/
theorem sortHitsDesc_sorted :
    ∀ l : List Hit,
      (sortHitsDesc l).Pairwise (fun a b => b.score ≤ a.score) := by
  intro l
  induction l with
  | nil => simp [sortHitsDesc]
  | cons x xs ih => exact insHitDesc_sorted x (sortHitsDesc xs) ih

/-- C4: in the output of _retrieve_with_dynamic_matching, each id occurs
at most once; the hit kept for an id is the boost of its first occurrence
in the concatenated variant stream (so a later occurrence of the same id
is dropped even if its score is higher); and no input id is lost. -/
theorem rwdm_dedup_first_wins (mapper : RuleMapper)
    (search : String → Nat → SearchRes) (queries : List String) (k : Nat)
    (rule_id : String) :
    ((rwdmHits mapper search queries k rule_id).map Hit.id).Nodup ∧
    (∀ h ∈ rwdmHits mapper search queries k rule_id,
      ∃ h0, (queries.flatMap (fun q => hitsOf (search q k))).find?
          (fun x => x.id == h.id) = some h0 ∧
        h = boostHit mapper rule_id h0) ∧
    (∀ h0 ∈ queries.flatMap (fun q => hitsOf (search q k)),
      h0.id ∈ (rwdmHits mapper search queries k rule_id).map Hit.id) := by
  have hmerged : rwdmMerged mapper search queries k rule_id =
      dedupBoost mapper rule_id []
        (queries.flatMap (fun q => hitsOf (search q k))) := by
    rw [rwdmMerged_eq_stream,
      foldl_mergeStep_eq mapper rule_id _ [] [] rfl]
    rfl
  have hperm : List.Perm (rwdmHits mapper search queries k rule_id)
      (dedupBoost mapper rule_id []
        (queries.flatMap (fun q => hitsOf (search q k)))) := by
    unfold rwdmHits
    rw [hmerged]
    exact sortHitsDesc_perm _
  refine ⟨?_, ?_, ?_⟩
  · exact ((hperm.map Hit.id).nodup_iff).2
      (dedupBoost_nodup mapper rule_id _ []).1
  · intro h hmem
    have hmem2 := hperm.mem_iff.1 hmem
    obtain ⟨_, h0, hfind, hb⟩ := dedupBoost_first mapper rule_id _ [] h hmem2
    exact ⟨h0, hfind, hb⟩
  · intro h0 hmem
    rcases dedupBoost_covers mapper rule_id _ [] h0 hmem with hs | hout
    · cases hs
    · exact ((hperm.map Hit.id).mem_iff).2 hout

/-- Concrete two-variant search for the C4 witness: the id "a" appears in
both variants, with a higher score in the second. -/
def rwdmWitSearch : String → Nat → SearchRes := fun q _ =>
  if q = "q1" then packHits [⟨"a", 1, "da", []⟩, ⟨"b", 2, "db", []⟩]
  else packHits [⟨"a", 3, "da2", []⟩]

/-- Witness for C4: at the concrete search above, the merged output ids
are distinct, the kept hit for id "a" is the first occurrence (score 1,
not the later score-3 occurrence), and every streamed id is present. -/
theorem rwdm_dedup_first_wins_witness :
    ((rwdmHits RuleMapper.fresh rwdmWitSearch ["q1", "q2"] 5 "").map Hit.id).Nodup ∧
    (∃ h0, (["q1", "q2"].flatMap (fun q => hitsOf (rwdmWitSearch q 5))).find?
        (fun x => x.id == (boostHit RuleMapper.fresh ""
          (⟨"a", 1, "da", []⟩ : Hit)).id) = some h0 ∧
      boostHit RuleMapper.fresh "" (⟨"a", 1, "da", []⟩ : Hit) =
        boostHit RuleMapper.fresh "" h0) ∧
    ((⟨"a", 3, "da2", []⟩ : Hit).id ∈
      (rwdmHits RuleMapper.fresh rwdmWitSearch ["q1", "q2"] 5 "").map Hit.id) := by
  have hout : rwdmHits RuleMapper.fresh rwdmWitSearch ["q1", "q2"] 5 "" =
      [⟨"b", 2, "db", []⟩, ⟨"a", 1, "da", []⟩] := by
    norm_num +decide [rwdmHits, rwdmMerged, rwdmWitSearch, hitsOf, packHits,
      mergeStep, boostHit, boostFactor, sortHitsDesc, insHitDesc,
      List.foldl_cons, List.foldl_nil, List.contains]
  have hmem : boostHit RuleMapper.fresh "" (⟨"a", 1, "da", []⟩ : Hit) ∈
      rwdmHits RuleMapper.fresh rwdmWitSearch ["q1", "q2"] 5 "" := by
    rw [hout]
    norm_num [boostHit, boostFactor]
  have hstream : (⟨"a", 3, "da2", []⟩ : Hit) ∈
      ["q1", "q2"].flatMap (fun q => hitsOf (rwdmWitSearch q 5)) := by
    norm_num +decide [rwdmWitSearch, hitsOf, packHits]
  refine ⟨(rwdm_dedup_first_wins RuleMapper.fresh rwdmWitSearch
      ["q1", "q2"] 5 "").1, ?_, ?_⟩
  · obtain ⟨h0, hfind, hb⟩ := (rwdm_dedup_first_wins RuleMapper.fresh
      rwdmWitSearch ["q1", "q2"] 5 "").2.1 _ hmem
    exact ⟨h0, hfind, by rw [← hb]⟩
  · exact (rwdm_dedup_first_wins RuleMapper.fresh rwdmWitSearch
      ["q1", "q2"] 5 "").2.2 _ hstream

/-! ## Claim C5: boost ordering of exact, no-rule and different-rule hits -/

/-- The character list of a string is empty iff the string is empty. -/
theorem toList_eq_nil_iff (s : String) : s.toList = [] ↔ s = "" := by
  cases s with
  | mk data =>
    constructor
    · intro h
      simp only [String.toList] at h
      simp [h]
    · intro h
      rw [h]
      rfl

/-- The boolean substring test agrees with the infix relation. -/
theorem listIsInfix_correct (n : List Char) :
    ∀ h : List Char, listIsInfix n h = true ↔ n <:+: h := by
  intro h
  induction h with
  | nil =>
    simp only [listIsInfix, List.isEmpty_iff]
    constructor
    · intro hn; simp [hn]
    · intro hn; exact List.sublist_nil.1 hn.sublist
  | cons c t ih =>
    simp only [listIsInfix, Bool.or_eq_true, List.isPrefixOf_iff_prefix, ih,
      List.infix_cons_iff]

/-- A string containing a superstring contains the substring. -/
theorem pyContains_of_starts (hay p q : String)
    (hpq : q.toList <+: p.toList) (h : pyContains hay p = true) :
    pyContains hay q = true := by
  unfold pyContains at h ⊢
  rw [listIsInfix_correct] at h ⊢
  exact List.IsInfix.trans hpq.isInfix h

/-- An empty haystack contains no non-empty needle. -/
theorem pyContains_empty_hay (p : String) (hp : p ≠ "") :
    pyContains "" p = false := by
  unfold pyContains
  unfold listIsInfix
  cases hl : p.toList with
  | nil => exact absurd ((toList_eq_nil_iff p).1 hl) hp
  | cons c t => rfl

/-- Lowercasing the empty string only. -/
theorem pyLower_eq_empty_iff (s : String) : pyLower s = "" ↔ s = "" := by
  unfold pyLower
  constructor
  · intro h
    have h2 : (String.mk (s.toList.map Char.toLower)).toList = [] := by
      rw [h]; rfl
    have h3 : s.toList.map Char.toLower = [] := h2
    exact (toList_eq_nil_iff s).1 (List.map_eq_nil_iff.1 h3)
  · intro h; rw [h]; rfl

/-- Every exact rule pattern starts with the word rule. -/
theorem exactRulePats_start_rule (rule_id : String) :
    ∀ p ∈ exactRulePats rule_id, ("rule").toList <+: p.toList := by
  intro p hp
  unfold exactRulePats at hp
  rcases List.mem_cons.1 hp with rfl | hp2
  · show ("rule").toList <+: ("rule#" ++ rule_id).toList
    show ("rule").toList <+: ("rule#" ++ rule_id).data
    rw [String.data_append]
    exact List.IsPrefix.trans (by decide) (List.prefix_append _ _)
  · rcases List.mem_cons.1 hp2 with rfl | hp3
    · show ("rule").toList <+: ("rule " ++ rule_id).data
      rw [String.data_append]
      exact List.IsPrefix.trans (by decide) (List.prefix_append _ _)
    · rcases List.mem_cons.1 hp3 with rfl | hp4
      · show ("rule").toList <+: ("rule " ++ natRepr (intOfDigits rule_id)).data
        rw [String.data_append]
        exact List.IsPrefix.trans (by decide) (List.prefix_append _ _)
      · cases hp4

/-- Exact patterns are non-empty strings. -/
theorem exactRulePats_ne_empty (rule_id : String) :
    ∀ p ∈ exactRulePats rule_id, p ≠ "" := by
  intro p hp he
  have h := exactRulePats_start_rule rule_id p hp
  rw [he] at h
  have := h.length_le
  simp at this

/-- With pairwise-distinct ids and a disjoint seen set, the merge keeps
every hit (boosted) in order. -/
theorem dedupBoost_of_nodup (mapper : RuleMapper) (rule_id : String) :
    ∀ (l : List Hit) (seen : List String),
      (∀ h ∈ l, ¬ h.id ∈ seen) → (l.map Hit.id).Nodup →
      dedupBoost mapper rule_id seen l = l.map (boostHit mapper rule_id) := by
  intro l
  induction l with
  | nil => intro seen _ _; rfl
  | cons x t ih =>
    intro seen hseen hnodup
    have hnodup2 : x.id ∉ t.map Hit.id ∧ (t.map Hit.id).Nodup :=
      List.nodup_cons.1 (by simpa using hnodup)
    unfold dedupBoost
    have hc : ¬ seen.contains x.id = true := by
      intro hcc
      exact hseen x (List.mem_cons_self x t) (by simpa using hcc)
    rw [if_neg hc, List.map_cons]
    congr 1
    apply ih
    · intro h hht hmem
      rcases List.mem_append.1 hmem with h1 | h2
      · exact hseen h (List.mem_cons_of_mem _ hht) h1
      · have hxid : h.id = x.id := by simpa using h2
        exact hnodup2.1 (hxid ▸ List.mem_map_of_mem Hit.id hht)
    · exact hnodup2.2

/-- A list that is a permutation of three hits with strictly decreasing
scores and is sorted descending equals that three-hit list. -/
theorem sorted_perm_unique3 (x y z : Hit) (out : List Hit)
    (hperm : List.Perm out [x, y, z])
    (hsorted : out.Pairwise (fun a b => b.score ≤ a.score))
    (hxy : y.score < x.score) (hyz : z.score < y.score) :
    out = [x, y, z] := by
  have hlen : out.length = 3 := by rw [hperm.length_eq]; rfl
  cases out with
  | nil => simp at hlen
  | cons p o1 =>
    cases o1 with
    | nil => simp at hlen
    | cons q o2 =>
      cases o2 with
      | nil => simp at hlen
      | cons r o3 =>
        cases o3 with
        | cons s o4 => simp at hlen
        | nil =>
          obtain ⟨hp1, hrest⟩ := List.pairwise_cons.1 hsorted
          obtain ⟨hq1, _⟩ := List.pairwise_cons.1 hrest
          have hpq : q.score ≤ p.score := hp1 q (by simp)
          have hpr : r.score ≤ p.score := hp1 r (by simp)
          have hqr : r.score ≤ q.score := hq1 r (by simp)
          have hxmem : x ∈ [p, q, r] := hperm.symm.subset (by simp)
          have hpmem : p ∈ [x, y, z] := hperm.subset (by simp)
          have hpx : p = x := by
            rcases (by simpa using hpmem : p = x ∨ p = y ∨ p = z) with h | h | h
            · exact h
            · rcases (by simpa using hxmem : x = p ∨ x = q ∨ x = r) with h2 | h2 | h2
              · exact h2.symm
              · rw [h] at hpq
                rw [h2] at hxy
                exact absurd hpq (not_le.2 hxy)
              · rw [h] at hpr
                rw [h2] at hxy
                exact absurd hpr (not_le.2 hxy)
            · have hzx : z.score < x.score := lt_trans hyz hxy
              rcases (by simpa using hxmem : x = p ∨ x = q ∨ x = r) with h2 | h2 | h2
              · exact h2.symm
              · rw [h] at hpq
                rw [h2] at hzx
                exact absurd hpq (not_le.2 hzx)
              · rw [h] at hpr
                rw [h2] at hzx
                exact absurd hpr (not_le.2 hzx)
          subst hpx
          have hperm2 : List.Perm [q, r] [y, z] := hperm.cons_inv
          have hqmem : q ∈ [y, z] := hperm2.subset (by simp)
          have hqy : q = y := by
            rcases (by simpa using hqmem : q = y ∨ q = z) with h | h
            · exact h
            · have hymem : y ∈ [q, r] := hperm2.symm.subset (by simp)
              rcases (by simpa using hymem : y = q ∨ y = r) with h2 | h2
              · rw [h2, h] at hyz; exact absurd le_rfl (not_le.2 hyz)
              · rw [h] at hqr
                rw [← h2] at hqr
                exact absurd hqr (not_le.2 hyz)
          subst hqy
          have hperm3 : List.Perm [r] [z] := hperm2.cons_inv
          rw [List.perm_singleton.1 hperm3]

/-- A document matching an exact rule pattern gets the 2.5 boost. -/
theorem boostFactor_exact (mapper : RuleMapper) (rule_id d : String)
    (hrid : rule_id ≠ "")
    (hex : (exactRulePats rule_id).any
      (fun p => pyContains (pyLower d) p) = true) :
    boostFactor mapper rule_id d = 5 / 2 := by
  have hd : d ≠ "" := by
    intro hde
    obtain ⟨p, hp, hcp⟩ := List.any_eq_true.1 hex
    rw [hde] at hcp
    rw [show pyLower "" = "" from rfl] at hcp
    rw [pyContains_empty_hay p (exactRulePats_ne_empty rule_id p hp)] at hcp
    cases hcp
  simp [boostFactor, hrid, hd, hex]

/-- With an unloaded mapper, a document mentioning a different rule
number gets the 0.5 penalty. -/
theorem boostFactor_diffRule (mapper : RuleMapper) (rule_id d : String)
    (m : RMatch) (hrid : rule_id ≠ "") (hml : mapper.loaded = false)
    (hex : (exactRulePats rule_id).any
      (fun p => pyContains (pyLower d) p) = false)
    (hr : pyContains (pyLower d) "rule" = true)
    (hm : reSearch false false OTHER_RULE_PAT (pyLower d) = some m)
    (hne : zfill (groupStr (pyLower d) m) 3 ≠ rule_id) :
    boostFactor mapper rule_id d = 1 / 2 := by
  have hd : d ≠ "" := by
    intro hde
    rw [hde, show pyLower "" = "" from rfl,
      pyContains_empty_hay "rule" (by decide)] at hr
    cases hr
  simp [boostFactor, hrid, hd, hex, hml, hr, hm, hne]

/-- With an unloaded mapper, a document that does not mention "rule" at
all keeps its score (factor 1). -/
theorem boostFactor_noRule (mapper : RuleMapper) (rule_id d : String)
    (hml : mapper.loaded = false)
    (hr : pyContains (pyLower d) "rule" = false) :
    boostFactor mapper rule_id d = 1 := by
  by_cases hd : d = ""
  · simp [boostFactor, hd]
  · have hex : (exactRulePats rule_id).any
        (fun p => pyContains (pyLower d) p) = false := by
      cases hex : (exactRulePats rule_id).any
          (fun p => pyContains (pyLower d) p) with
      | false => rfl
      | true =>
        obtain ⟨p, hp, hcp⟩ := List.any_eq_true.1 hex
        rw [pyContains_of_starts (pyLower d) p "rule"
          (exactRulePats_start_rule rule_id p hp) hcp] at hr
        cases hr
    simp [boostFactor, hd, hex, hml, hr]

/-- C5 counterexample: with a LOADED mapper (empty learned tables), three
hits of identical raw score 4/5 arriving in the order different-rule,
no-rule, exact-match: the different-rule hit is not penalized (the 0.5
branch is unreachable when the mapper is loaded), ties with the no-rule
hit at 4/5, and stays ahead of it by merge order, so the output order is
exact, different-rule, no-rule — not the claimed exact, no-rule,
different-rule. -/
theorem boost_ordering_cex :
    (rwdmHits { RuleMapper.fresh with loaded := true }
      (fun _ _ => packHits
        [⟨"B", 4/5, "Rule 005 steps", []⟩, ⟨"C", 4/5, "general info", []⟩,
         ⟨"A", 4/5, "Rule 002 alpha", []⟩])
      ["q"] 5 "002").map Hit.id = ["A", "B", "C"] ∧
    (["A", "B", "C"] : List String) ≠ ["A", "C", "B"] := by
  constructor
  · norm_num +decide [rwdmHits, rwdmMerged, hitsOf, packHits, mergeStep,
      boostHit, boostFactor, RuleMapper.getRulePatterns, alGet,
      RuleMapper.fresh, sortHitsDesc, insHitDesc,
      List.foldl_cons, List.foldl_nil, List.contains]
  · decide

/-- C5 amended: when a rule id is known and the learned mapper is NOT
loaded, for three merged hits of identical raw score 4/5 — one with an
exact rule-pattern match, one mentioning a different rule number, one
with no rule mention, pairwise distinct ids, arriving in any order — the
boosted, re-sorted output ranks the exact hit first, the no-rule hit
second and the different-rule hit last. -/
theorem boost_ordering (mapper : RuleMapper) (hA hB hC : Hit)
    (l : List Hit) (q rule_id : String) (mB : RMatch)
    (hml : mapper.loaded = false) (hrid : rule_id ≠ "")
    (hsA : hA.score = 4/5) (hsB : hB.score = 4/5) (hsC : hC.score = 4/5)
    (hexA : (exactRulePats rule_id).any
      (fun p => pyContains (pyLower hA.doc) p) = true)
    (hexB : (exactRulePats rule_id).any
      (fun p => pyContains (pyLower hB.doc) p) = false)
    (hrB : pyContains (pyLower hB.doc) "rule" = true)
    (hmB : reSearch false false OTHER_RULE_PAT (pyLower hB.doc) = some mB)
    (hneB : zfill (groupStr (pyLower hB.doc) mB) 3 ≠ rule_id)
    (hrC : pyContains (pyLower hC.doc) "rule" = false)
    (hab : hA.id ≠ hB.id) (hac : hA.id ≠ hC.id) (hbc : hB.id ≠ hC.id)
    (hperm : List.Perm l [hA, hB, hC]) :
    (rwdmHits mapper (fun _ _ => packHits l) [q] 5 rule_id).map Hit.id =
      [hA.id, hC.id, hB.id] := by
  have hnodup : (l.map Hit.id).Nodup := by
    refine (hperm.map Hit.id).nodup_iff.2 ?_
    simp [hab, hac, hbc]
  have hmerged : rwdmMerged mapper (fun _ _ => packHits l) [q] 5 rule_id =
      l.map (boostHit mapper rule_id) := by
    rw [rwdmMerged_eq_stream, foldl_mergeStep_eq mapper rule_id _ [] [] rfl]
    show [] ++ dedupBoost mapper rule_id [] (hitsOf (packHits l) ++ []) = _
    rw [List.append_nil, List.nil_append, hitsOf_packHits]
    exact dedupBoost_of_nodup mapper rule_id l [] (by simp) hnodup
  have hbA : (boostHit mapper rule_id hA).score = 2 := by
    simp [boostHit, boostFactor_exact mapper rule_id hA.doc hrid hexA, hsA]
    norm_num
  have hbB : (boostHit mapper rule_id hB).score = 2/5 := by
    simp [boostHit, boostFactor_diffRule mapper rule_id hB.doc mB hrid hml
      hexB hrB hmB hneB, hsB]
    norm_num
  have hbC : (boostHit mapper rule_id hC).score = 4/5 := by
    simp [boostHit, boostFactor_noRule mapper rule_id hC.doc hml hrC, hsC]
  have houtperm : List.Perm
      (rwdmHits mapper (fun _ _ => packHits l) [q] 5 rule_id)
      [boostHit mapper rule_id hA, boostHit mapper rule_id hC,
        boostHit mapper rule_id hB] := by
    unfold rwdmHits
    rw [hmerged]
    refine ((sortHitsDesc_perm _).trans (hperm.map _)).trans ?_
    exact List.Perm.cons _ (List.Perm.swap _ _ _)
  have hsorted := sortHitsDesc_sorted
    (rwdmMerged mapper (fun _ _ => packHits l) [q] 5 rule_id)
  have hout := sorted_perm_unique3 (boostHit mapper rule_id hA)
    (boostHit mapper rule_id hC) (boostHit mapper rule_id hB)
    (rwdmHits mapper (fun _ _ => packHits l) [q] 5 rule_id)
    houtperm hsorted
    (by rw [hbA, hbC]; norm_num) (by rw [hbB, hbC]; norm_num)
  rw [hout]
  simp [boostHit_id]

/-- Witness for the amended C5 at concrete documents, with the three hits
arriving in the order different-rule, no-rule, exact-match. -/
theorem boost_ordering_witness :
    (rwdmHits RuleMapper.fresh
      (fun _ _ => packHits
        [⟨"B", 4/5, "Rule 005 beta", []⟩, ⟨"C", 4/5, "gamma", []⟩,
         ⟨"A", 4/5, "Rule 002 alpha", []⟩])
      ["q"] 5 "002").map Hit.id = ["A", "C", "B"] := by
  have h := boost_ordering RuleMapper.fresh
    ⟨"A", 4/5, "Rule 002 alpha", []⟩ ⟨"B", 4/5, "Rule 005 beta", []⟩
    ⟨"C", 4/5, "gamma", []⟩
    [⟨"B", 4/5, "Rule 005 beta", []⟩, ⟨"C", 4/5, "gamma", []⟩,
      ⟨"A", 4/5, "Rule 002 alpha", []⟩]
    "q" "002" ⟨0, 8, some (5, 8)⟩
    rfl (by decide) rfl rfl rfl (by decide) (by decide) (by decide) rfl
    (by decide) (by decide) (by decide) (by decide) (by decide) ?_
  · exact h
  · refine (List.Perm.cons _ (List.Perm.swap _ _ _)).trans
      (List.Perm.swap _ _ _)

/-! ## Claim C9: per-bucket score normalization -/

/-- All boost factors are strictly positive. -/
theorem boostFactor_pos (mapper : RuleMapper) (rule_id d : String) :
    0 < boostFactor mapper rule_id d := by
  unfold boostFactor
  simp only []
  repeat' split
  all_goals norm_num

/-- The score of a hit produced by the zip unpacking is one of the
result scores. -/
theorem score_mem_of_hitsOf (res : SearchRes) (h : Hit)
    (hmem : h ∈ hitsOf res) : h.score ∈ res.scores := by
  unfold hitsOf at hmem
  obtain ⟨t, ht, he⟩ := List.mem_map.1 hmem
  obtain ⟨i, s, d, m⟩ := t
  have h1 := List.of_mem_zip ht
  have h2 := List.of_mem_zip h1.2
  rw [← he]
  exact h2.1

/-- Every hit of the merged-and-sorted retrieval output has positive
score when every score produced by the search backend is positive. -/
theorem rwdmHits_pos (mapper : RuleMapper)
    (search : String → Nat → SearchRes) (queries : List String) (k : Nat)
    (rule_id : String)
    (hpos : ∀ (q2 : String) (k2 : Nat), ∀ s ∈ (search q2 k2).scores, 0 < s) :
    ∀ h ∈ rwdmHits mapper search queries k rule_id, 0 < h.score := by
  intro h hmem
  obtain ⟨h0, hfind, hb⟩ :=
    (rwdm_dedup_first_wins mapper search queries k rule_id).2.1 h hmem
  have h0mem : h0 ∈ queries.flatMap (fun q => hitsOf (search q k)) :=
    List.mem_of_find?_eq_some hfind
  obtain ⟨q2, _, hq2⟩ := List.mem_flatMap.1 h0mem
  have hspos : 0 < h0.score := hpos q2 k (h0.score) (score_mem_of_hitsOf _ _ hq2)
  rw [hb]
  exact mul_pos hspos (boostFactor_pos mapper rule_id h0.doc)

/-- A seed is below the running maximum. -/
theorem seed_le_foldl_max (t : List Hit) :
    ∀ b : ℚ, b ≤ t.foldl (fun a y => max a y.score) b := by
  induction t with
  | nil => intro b; exact le_refl b
  | cons y t ih =>
    intro b
    exact le_trans (le_max_left b y.score) (ih (max b y.score))

/-- Every element score is below the running maximum. -/
theorem mem_le_foldl_max (t : List Hit) :
    ∀ (b : ℚ) (h : Hit), h ∈ t →
      h.score ≤ t.foldl (fun a y => max a y.score) b := by
  induction t with
  | nil => intro b h hm; cases hm
  | cons y t ih =>
    intro b h hm
    rcases List.mem_cons.1 hm with rfl | hmt
    · exact le_trans (le_max_right b h.score) (seed_le_foldl_max t _)
    · exact ih _ h hmt

/-- Python max over the hit scores dominates every member. -/
theorem le_maxScore (l : List Hit) (h : Hit) (hm : h ∈ l) :
    h.score ≤ maxScore l := by
  cases l with
  | nil => cases hm
  | cons x t =>
    unfold maxScore
    rcases List.mem_cons.1 hm with rfl | hmt
    · exact seed_le_foldl_max t h.score
    · exact mem_le_foldl_max t x.score h hmt

/-- The maximum of positive scores is positive. -/
theorem maxScore_pos (x : Hit) (t : List Hit) (hx : 0 < x.score) :
    0 < maxScore (x :: t) := by
  unfold maxScore
  exact lt_of_lt_of_le hx (seed_le_foldl_max t x.score)

/-- Normalizing a bucket of positive scores yields scores in (0, 1]. -/
theorem normBucket_range (hits : List Hit)
    (hall : ∀ h ∈ hits, 0 < h.score) :
    ∀ h2 ∈ normBucket hits, 0 < h2.score ∧ h2.score ≤ 1 := by
  intro h2 hmem
  cases hits with
  | nil => cases hmem
  | cons x t =>
    have hmax : 0 < maxScore (x :: t) :=
      maxScore_pos x t (hall x (List.mem_cons_self x t))
    have hne : maxScore (x :: t) ≠ 0 := ne_of_gt hmax
    have heq : normBucket (x :: t) = (x :: t).map
        (fun h => { h with score := h.score / maxScore (x :: t) }) := by
      simp only [normBucket]
      simp [hne]
    rw [heq] at hmem
    obtain ⟨h, hh, he⟩ := List.mem_map.1 hmem
    rw [← he]
    constructor
    · exact div_pos (hall h hh) hmax
    · exact (div_le_one hmax).2 (le_maxScore (x :: t) h hh)

/-- Membership survives an optional filter. -/
theorem mem_of_mem_ite_filter {c : Prop} [Decidable c] (l : List Hit)
    (p : Hit → Bool) (h : Hit)
    (hmem : h ∈ (if c then l.filter p else l)) : h ∈ l := by
  split at hmem
  · exact (List.mem_filter.1 hmem).1
  · exact hmem

/-- The rule-relevance filter only reorders and drops hits. -/
theorem filterByRuleRelevance_subset (mapper : RuleMapper)
    (hits : List Hit) (rule_id : String) (h : Hit)
    (hmem : h ∈ filterByRuleRelevance mapper hits rule_id) : h ∈ hits := by
  unfold filterByRuleRelevance at hmem
  split at hmem
  · exact hmem
  · rcases List.mem_append.1 hmem with h1 | h2
    · rcases List.mem_append.1 h1 with h3 | h4
      · exact (List.mem_filter.1 h3).1
      · exact (List.mem_filter.1 (List.mem_of_mem_take h4)).1
    · exact (List.mem_filter.1 (List.mem_of_mem_take h2)).1

/-- Membership survives an optional rule-relevance filter. -/
theorem mem_of_mem_ite_relevance {c : Prop} [Decidable c]
    (mapper : RuleMapper) (l : List Hit) (rid : String) (h : Hit)
    (hmem : h ∈ (if c then filterByRuleRelevance mapper l rid else l)) :
    h ∈ l := by
  split at hmem
  · exact filterByRuleRelevance_subset mapper l rid h hmem
  · exact hmem

/-- C9 amended: if every similarity score delivered by the search backend
is positive, then every score in the tracker and rulebook buckets
returned by retrieve_context lies in (0, 1] (each bucket is divided by
its own maximum).  Scores that are zero or negative — which inner-product
search can produce — escape (0, 1], as the counterexample shows. -/
theorem retrieve_context_norm_range (mapper : RuleMapper)
    (search : String → Nat → SearchRes) (jparse : String → Option PyVal)
    (query : String) (kt kr : Nat)
    (hpos : ∀ (q2 : String) (k2 : Nat), ∀ s ∈ (search q2 k2).scores, 0 < s) :
    (∀ h ∈ (retrieve_context mapper search jparse query kt kr).tracker,
      0 < h.score ∧ h.score ≤ 1) ∧
    (∀ h ∈ (retrieve_context mapper search jparse query kt kr).rulebook,
      0 < h.score ∧ h.score ≤ 1) := by
  have hraw := rwdmHits_pos mapper search
    ((if (classify_query mapper query).about_tracker then
        expand_tracker_queries query else [query]) ++
      (if (classify_query mapper query).about_rule then
        expand_rulebook_queries mapper query
          (classify_query mapper query).rule_id else [query]))
    (max kt kr) (classify_query mapper query).rule_id hpos
  constructor
  · intro h hmem
    refine normBucket_range _ ?_ h hmem
    intro h2 hmem2
    have h3 := List.mem_of_mem_take hmem2
    have h4 : h2 ∈ filterEmptyTrackerRows jparse _ := h3
    have h5 := (List.mem_filter.1 h4).1
    have h6 := mem_of_mem_ite_filter _ _ _ h5
    have h7 := (List.mem_filter.1 h6).1
    exact hraw h2 h7
  · intro h hmem
    refine normBucket_range _ ?_ h hmem
    intro h2 hmem2
    have h3 := List.mem_of_mem_take hmem2
    have h5 := mem_of_mem_ite_relevance _ _ _ _ h3
    have h6 := (List.mem_filter.1 h5).1
    exact hraw h2 h6

/-- A search backend returning two tracker rows with negative
inner-product scores (-1/2 and -1). -/
def negSearch : String → Nat → SearchRes := fun _ _ =>
  packHits [⟨"h1", -1/2, "d1", [("doctype", PyVal.vstr "tracker_row")]⟩,
            ⟨"h2", -1, "d2", [("doctype", PyVal.vstr "tracker_row")]⟩]

/-- C9 counterexample: with negative raw scores the normalized tracker
bucket contains the score 2, which is outside (0, 1]: dividing by a
negative bucket maximum flips magnitudes, so the claimed range does not
hold for every retrieval result. -/
theorem retrieve_context_norm_range_cex :
    ¬ (∀ h ∈ (retrieve_context RuleMapper.fresh negSearch (fun _ => none)
        "x" 2 5).tracker, 0 < h.score ∧ h.score ≤ 1) := by
  intro hall
  have hout : (retrieve_context RuleMapper.fresh negSearch (fun _ => none)
      "x" 2 5).tracker =
      [⟨"h1", 1, "d1", [("doctype", PyVal.vstr "tracker_row")]⟩,
       ⟨"h2", 2, "d2", [("doctype", PyVal.vstr "tracker_row")]⟩] := by
    norm_num +decide [retrieve_context, classify_query, parse_rule_id,
      RuleMapper.findRuleFromQuery, RuleMapper.fresh, reMatch, reSearch,
      reSearchFrom, matchSeq, maxRun, tryG, cmatch, isWordChar,
      EXACT_RULE_PAT, RULE_PAT, JUST_NUMBER_PAT, litStr, groupStr, pySlice,
      zfill, pyLower, pyStrip, pyIsSpace, pySplitWs, pyContains,
      listIsInfix, trackerKeywords, expand_tracker_queries, dedupKeepFirst,
      expand_rulebook_queries, rwdmHits, rwdmMerged, mergeStep, boostHit,
      boostFactor, exactRulePats, intOfDigits, natRepr, hitsOf, packHits,
      negSearch, sortHitsDesc, insHitDesc, bucketIsTracker, isTrackerMeta,
      isRulebookMeta, metaStrOr, dictGet, dictHasKey, pyTruthy, pyValStr,
      filterByRuleRelevance, relClassOf, OTHER_RULE_PAT,
      filterEmptyTrackerRows, keepTrackerHit, normBucket, maxScore,
      List.foldl_cons, List.foldl_nil, List.contains, List.filter_cons,
      List.filter_nil, List.flatMap_cons, List.flatMap_nil]
  have h2 := hall ⟨"h2", 2, "d2", [("doctype", PyVal.vstr "tracker_row")]⟩
    (by rw [hout]; simp)
  exact absurd h2.2 (by norm_num)

/-- A search backend with positive scores for the C9 witness. -/
def posSearch : String → Nat → SearchRes := fun _ _ =>
  packHits [⟨"p1", 1/2, "d1", [("doctype", PyVal.vstr "tracker_row")]⟩,
            ⟨"p2", 1/4, "d2", [("doctype", PyVal.vstr "rulebook")]⟩]

/-- Witness for the amended C9: with the all-positive backend above,
both returned buckets have scores in (0, 1]. -/
theorem retrieve_context_norm_range_witness :
    (∀ (q2 : String) (k2 : Nat), ∀ s ∈ (posSearch q2 k2).scores, 0 < s) ∧
    (∀ h ∈ (retrieve_context RuleMapper.fresh posSearch (fun _ => none)
        "x" 2 5).tracker, 0 < h.score ∧ h.score ≤ 1) ∧
    (∀ h ∈ (retrieve_context RuleMapper.fresh posSearch (fun _ => none)
        "x" 2 5).rulebook, 0 < h.score ∧ h.score ≤ 1) := by
  have hpos : ∀ (q2 : String) (k2 : Nat), ∀ s ∈ (posSearch q2 k2).scores, 0 < s := by
    intro q2 k2 s hs
    simp [posSearch, packHits] at hs
    rcases hs with rfl | rfl <;> norm_num
  exact ⟨hpos,
    (retrieve_context_norm_range RuleMapper.fresh posSearch (fun _ => none)
      "x" 2 5 hpos).1,
    (retrieve_context_norm_range RuleMapper.fresh posSearch (fun _ => none)
      "x" 2 5 hpos).2⟩
